import Mathlib

/-!
# ChessboardStereoCalibration

A shallow embedding of `ChessboardStereoCalibration.cpp` / `.h`
(SpectatorView.Native, SpectatorView.OpenCV, SharedFiles) and theorems about
the accumulation state machine, the corner-ordering heuristic and the
world-pattern generation.

Modelling conventions.

* A finite `float` or `double` is the rational it denotes (`ℚ`).  The one
  computation on floats that decides control flow, the dot product tested at
  source line 107, is modelled in IEEE 754 binary32 (`F32`, `binary32`):
  round to nearest, ties to even, gradual underflow, overflow to infinity, NaN.
  It is evaluated in binary32 throughout (no contraction into a fused
  multiply-add, no excess precision).  The two signed zeros are one value: no
  operation of the file tells them apart.  Corner coordinates are finite.
  Floats that are only stored (world points, intrinsics, the output buffer) are
  kept as exact rationals: their final rounding is not modelled.
* The OpenCV entry points used by the file (`cv::Mat` construction,
  `cv::cvtColor`, `cv::findChessboardCorners`, `cv::stereoCalibrate`,
  `cv::Rodrigues`) are external to the repository.  They are taken as a
  parameter (`OpenCV Mat`), so every theorem holds for every behaviour of the
  library.
* Raw pointers (`unsigned char *`, `float *`) are total maps from an index to a
  value; `&p[k]` is the map shifted by `k`.
* `std::vector` is `List`; the checked access `.at(j)` raises
  `std::out_of_range`, modelled by `Abort.out_of_range`, which carries the
  members of the object at the moment of the throw.  `front()` / `back()` on an
  empty vector is undefined behaviour, modelled by `Abort.undefined_behaviour`.
* `int` is `Int`; the one place where a signed value is converted to the
  unsigned `size_t` of width `w` and the sign matters (`requiredImages`) is
  modelled by `toSizeT w`.  Comparisons of a size with `i` or `i - 1`, where
  `1 ≤ i`, are comparisons of naturals.
* `LoopState.calls` is a ghost field: it records every call of
  `stereo_calibration` made by the loop, with its arguments.
-/

namespace SpectatorView

/-! ## Data model -/

/-- Model of `cv::Point2f`. -/
structure Point2f where
  x : ℚ
  y : ℚ
deriving DecidableEq

/-- A value of the type `float` (IEEE 754 binary32): a finite number, an infinity with its
sign, or NaN. -/
inductive F32 where
  | finite (q : ℚ)
  | infinite (negative : Bool)
  | nan
deriving DecidableEq

/-- Negation of a `float`. -/
def F32.neg : F32 → F32
  | .finite q => .finite (-q)
  | .infinite negative => .infinite (!negative)
  | .nan => .nan

/-- The spacing of binary32 at `q ≥ 0`: the least `u = 2 ^ e` with `-149 ≤ e ≤ 104` and
`q < u * 2 ^ 24`, or `2 ^ 104` when there is none; `binary32_quantum q fuel u` searches upwards
from `u` in `fuel` doublings. -/
def binary32_quantum (q : ℚ) : Nat → ℚ → ℚ
  | 0, u => u
  | fuel + 1, u => if q < u * 16777216 then u else binary32_quantum q fuel (u * 2)

/-- The integer nearest to `x`, the even one of the two when `x` lies half-way. -/
def roundHalfEven (x : ℚ) : Int :=
  let f := x.floor
  let r := x - f
  if r < 1 / 2 then f
  else if 1 / 2 < r then f + 1
  else if f % 2 = 0 then f else f + 1

/-- Rounding of a rational `q ≥ 0` to binary32: the nearest multiple of the spacing at `q`,
ties to even; infinity from `2 ^ 128` on. -/
def binary32_roundNonneg (q : ℚ) : F32 :=
  let u := binary32_quantum q 253 (1 / 2 ^ 149)
  let v := (roundHalfEven (q / u) : ℚ) * u
  if (2 : ℚ) ^ 128 ≤ v then .infinite false else .finite v

/-- Rounding of a rational to binary32 (round to nearest, ties to even). -/
def binary32 (q : ℚ) : F32 :=
  if q < 0 then F32.neg (binary32_roundNonneg (-q)) else binary32_roundNonneg q

/-- Product of two `float`s. -/
def F32.mul : F32 → F32 → F32
  | .finite a, .finite b => binary32 (a * b)
  | .finite a, .infinite n => if a = 0 then .nan else .infinite (if a < 0 then !n else n)
  | .infinite n, .finite b => if b = 0 then .nan else .infinite (if b < 0 then !n else n)
  | .infinite n, .infinite k => .infinite (n != k)
  | _, _ => .nan

/-- Sum of two `float`s. -/
def F32.add : F32 → F32 → F32
  | .finite a, .finite b => binary32 (a + b)
  | .finite _, .infinite n => .infinite n
  | .infinite n, .finite _ => .infinite n
  | .infinite n, .infinite k => if n = k then .infinite n else .nan
  | _, _ => .nan

/-- The comparison `x <= 0.0` (false on NaN). -/
def F32.le_zero : F32 → Bool
  | .finite q => decide (q ≤ 0)
  | .infinite negative => negative
  | .nan => false

/-- The comparison `x < 0.0` (false on NaN). -/
def F32.lt_zero : F32 → Bool
  | .finite q => decide (q < 0)
  | .infinite negative => negative
  | .nan => false

/-- The comparison `x > 0.0` (false on NaN). -/
def F32.gt_zero : F32 → Bool
  | .finite q => decide (0 < q)
  | .infinite negative => !negative
  | .nan => false

/-- Model of `cv::Vec2f`. -/
structure Vec2f where
  v0 : F32
  v1 : F32
deriving DecidableEq

/-- Model of `cv::Point3f`. -/
structure Point3f where
  x : ℚ
  y : ℚ
  z : ℚ
deriving DecidableEq

/-- Model of `cv::Vec3d` (also used for the 3x1 output of `cv::Rodrigues`). -/
structure Vec3 where
  v0 : ℚ
  v1 : ℚ
  v2 : ℚ
deriving DecidableEq

/-- Model of `cv::Matx33f` / `cv::Matx33d`; `mRC` is the entry of row `R`, column `C`. -/
structure Matx33 where
  m00 : ℚ
  m01 : ℚ
  m02 : ℚ
  m10 : ℚ
  m11 : ℚ
  m12 : ℚ
  m20 : ℚ
  m21 : ℚ
  m22 : ℚ
deriving DecidableEq

/-- Model of `cv::Size`. -/
structure Size where
  width : Int
  height : Int
deriving DecidableEq

/-- The value of `cv::Matx33d::eye()`. -/
def Matx33.eye : Matx33 := ⟨1, 0, 0, 0, 1, 0, 0, 0, 1⟩

/-- Model of `struct Transformation` (source lines 4-52). -/
structure Transformation where
  R : Matx33
  t : Vec3
deriving DecidableEq

/-- The default constructor `Transformation()`: identity rotation, zero translation. -/
def Transformation.identity : Transformation := ⟨Matx33.eye, ⟨0, 0, 0⟩⟩

/-- The samples of one camera: `std::vector<std::vector<cv::Point2f>>`. -/
abbrev SampleList := List (List Point2f)

/-- A store of corner lists, one list of samples per secondary camera:
`std::vector<std::vector<std::vector<cv::Point2f>>>`. -/
abbrev CornerStore := List SampleList

/-- The private members of `class ChessboardStereoCalibration` (header lines 24-27). -/
structure Session where
  mainCameraMatCorners : CornerStore
  cameraMatCorners : CornerStore
  cameraMatCornersPnP : CornerStore
deriving DecidableEq

/-- Abnormal terminations of a call. -/
inductive Abort where
  | out_of_range (members : Session)
  | undefined_behaviour
deriving DecidableEq

/-- The OpenCV functions called by the file, with the signatures the file uses. -/
structure OpenCV (Mat : Type) where
  /-- Constructor `cv::Mat(height, width, CV_8UC4, data)`. -/
  Mat_8UC4 : Int → Int → (Int → Nat) → Mat
  /-- Conversion `cv::cvtColor(src, dst, cv::COLOR_BGRA2BGR)`. -/
  cvtColor_BGRA2BGR : Mat → Mat
  /-- Detector `cv::findChessboardCorners(image, pattern, corners)`: the returned flag and the
  corners it stores. -/
  findChessboardCorners : Mat → Size → Bool × List Point2f
  /-- Solver `cv::stereoCalibrate(objectPoints, imagePoints1, imagePoints2, K1, d1, K2, d2, size,
  R, t, noArray, noArray, CALIB_FIX_INTRINSIC)`: the `R` and `t` it stores. -/
  stereoCalibrate : List (List Point3f) → SampleList → SampleList →
    Matx33 → List ℚ → Matx33 → List ℚ → Size → Matx33 × Vec3
  /-- Conversion `cv::Rodrigues(R, rvec)`. -/
  Rodrigues : Matx33 → Vec3

/-! ## Free functions of the file -/

/-- Model of `color_to_opencv` (source lines 54-60). -/
def color_to_opencv {Mat : Type} (cv : OpenCV Mat) (im : Int → Nat) (width height : Int) : Mat :=
  cv.cvtColor_BGRA2BGR (cv.Mat_8UC4 height width im)

/-- The difference of two `cv::Point2f`, converted to `cv::Vec2f` (source lines 105, 106): each
component is the `float` difference of the coordinates. -/
def Point2f.sub (a b : Point2f) : Vec2f := ⟨binary32 (a.x - b.x), binary32 (a.y - b.y)⟩

/-- Model of `cv::Vec2f::dot`: `float s = 0; s += a[0] * b[0]; s += a[1] * b[1];`, every
operation in binary32. -/
def Vec2f.dot (a b : Vec2f) : F32 :=
  F32.add (F32.add (F32.finite 0) (F32.mul a.v0 b.v0)) (F32.mul a.v1 b.v1)

/-- Model of `std::vector::front()`; `none` on an empty vector. -/
def front (v : List Point2f) : Option Point2f := v.head?

/-- Model of `std::vector::back()`; `none` on an empty vector. -/
def back (v : List Point2f) : Option Point2f := v.getLast?

/-- Model of `find_chessboard_corners_helper` (source lines 62-112).  The result is the returned
flag followed by the final contents of the two output vectors `main_chessboard_corners` and
`secondary_chessboard_corners`. -/
def find_chessboard_corners_helper {Mat : Type} (cv : OpenCV Mat)
    (main_color_image secondary_color_image : Mat) (chessboard_pattern : Size) :
    Except Abort (Bool × List Point2f × List Point2f) :=
  let found_chessboard_main := (cv.findChessboardCorners main_color_image chessboard_pattern).1
  let main_chessboard_corners := (cv.findChessboardCorners main_color_image chessboard_pattern).2
  let found_chessboard_secondary :=
    (cv.findChessboardCorners secondary_color_image chessboard_pattern).1
  let secondary_chessboard_corners :=
    (cv.findChessboardCorners secondary_color_image chessboard_pattern).2
  if (!found_chessboard_main || !found_chessboard_secondary) = true then
    .ok (false, main_chessboard_corners, secondary_chessboard_corners)
  else
    match back main_chessboard_corners, front main_chessboard_corners,
        back secondary_chessboard_corners, front secondary_chessboard_corners with
    | some mb, some mf, some sb, some sf =>
      let main_image_corners_vec := Point2f.sub mb mf
      let secondary_image_corners_vec := Point2f.sub sb sf
      if (Vec2f.dot main_image_corners_vec secondary_image_corners_vec).le_zero = true then
        .ok (true, main_chessboard_corners, secondary_chessboard_corners.reverse)
      else
        .ok (true, main_chessboard_corners, secondary_chessboard_corners)
    | _, _, _, _ => .error Abort.undefined_behaviour

/-- The local `chessboard_corners_world` built by `stereo_calibration` (source lines 133-141):
the outer loop runs over `h < chessboard_pattern.height`, the inner one over
`w < chessboard_pattern.width`. -/
def chessboard_corners_world (chessboard_pattern : Size) (chessboard_square_length : ℚ) :
    List Point3f :=
  (List.range chessboard_pattern.height.toNat).flatMap fun (h : Nat) =>
    (List.range chessboard_pattern.width.toNat).map fun (w : Nat) =>
      ⟨(w : ℚ) * chessboard_square_length, (h : ℚ) * chessboard_square_length, 0⟩

/-- Model of `stereo_calibration` (source lines 114-186). -/
def stereo_calibration {Mat : Type} (cv : OpenCV Mat)
    (main_camera_matrix secondary_camera_matrix : Matx33)
    (main_dist_coeff secondary_dist_coeff : List ℚ)
    (main_chessboard_corners_list secondary_chessboard_corners_list : SampleList)
    (image_size chessboard_pattern : Size) (chessboard_square_length : ℚ) : Transformation :=
  let chessboard_corners_world_nested_for_cv :=
    List.replicate main_chessboard_corners_list.length
      (chessboard_corners_world chessboard_pattern chessboard_square_length)
  let out := cv.stereoCalibrate chessboard_corners_world_nested_for_cv
    secondary_chessboard_corners_list main_chessboard_corners_list
    secondary_camera_matrix secondary_dist_coeff main_camera_matrix main_dist_coeff image_size
  ⟨out.1, out.2⟩

/-! ## The class `ChessboardStereoCalibration` -/

/-- The members after the constructor: the three vectors are empty. -/
def Session.constructed : Session := ⟨[], [], []⟩

/-- Model of `ChessboardStereoCalibration::Initialize` (source lines 193-197). -/
def Initialize (s : Session) : Session :=
  { s with mainCameraMatCorners := [], cameraMatCorners := [] }

/-- The arguments of `TryCalibrate` (source lines 199-212); `completed` is an output only and is
part of `Returned`. -/
structure Args where
  numImages : Int
  requiredImages : Int
  images : Int → Nat
  width : Int
  height : Int
  pixelSize : Int
  chessboardWidth : Int
  chessboardHeight : Int
  chessboardSideLength : ℚ
  cameraProperties : Nat → ℚ
  cameraDistCoeffProperties : Nat → ℚ
  cameraTransforms : Nat → ℚ

/-- Conversion of an `int` to `size_t` of width `w` bits. -/
def toSizeT (w : Nat) (n : Int) : Nat := (n % (2 : Int) ^ w).toNat

/-- The local `chessboard_pattern` (source line 214). -/
def Args.chessboard_pattern (a : Args) : Size := ⟨a.chessboardWidth, a.chessboardHeight⟩

/-- The matrix pushed for camera `i` by the first loop (source lines 221-226). -/
def Args.cameraMat (a : Args) (i : Nat) : Matx33 :=
  ⟨a.cameraProperties (i * 4), 0, a.cameraProperties (i * 4 + 2),
   0, a.cameraProperties (i * 4 + 1), a.cameraProperties (i * 4 + 3),
   0, 0, 1⟩

/-- The coefficient vector pushed for camera `i` by the first loop (source lines 228-237). -/
def Args.cameraDistCoeff (a : Args) (i : Nat) : List ℚ :=
  [a.cameraDistCoeffProperties (i * 8), a.cameraDistCoeffProperties (i * 8 + 1),
   a.cameraDistCoeffProperties (i * 8 + 2), a.cameraDistCoeffProperties (i * 8 + 3),
   a.cameraDistCoeffProperties (i * 8 + 4), a.cameraDistCoeffProperties (i * 8 + 5),
   a.cameraDistCoeffProperties (i * 8 + 6), a.cameraDistCoeffProperties (i * 8 + 7)]

/-- The local `cameraMatrices` after the first loop (source lines 217-238). -/
def Args.cameraMatrices (a : Args) : List Matx33 :=
  (List.range a.numImages.toNat).map a.cameraMat

/-- The local `cameraDistCoeffs` after the first loop (source lines 217-238). -/
def Args.cameraDistCoeffs (a : Args) : List (List ℚ) :=
  (List.range a.numImages.toNat).map a.cameraDistCoeff

/-- The local `imageSize` (source line 240). -/
def Args.imageSize (a : Args) : Int := a.width * a.height * a.pixelSize

/-- The local `mainCameraMat` (source line 241). -/
def Args.mainCameraMat {Mat : Type} (cv : OpenCV Mat) (a : Args) : Mat :=
  color_to_opencv cv a.images a.width a.height

/-- The local `tempMat` of iteration `i` (source line 248): the frame at `&images[i * imageSize]`. -/
def Args.tempMat {Mat : Type} (cv : OpenCV Mat) (a : Args) (i : Nat) : Mat :=
  color_to_opencv cv (fun k => a.images ((i : Int) * a.imageSize + k)) a.width a.height

/-- The call of `find_chessboard_corners_helper` made by iteration `i` (source lines 249-256). -/
def Args.detect {Mat : Type} (cv : OpenCV Mat) (a : Args) (i : Nat) :
    Except Abort (Bool × List Point2f × List Point2f) :=
  find_chessboard_corners_helper cv (a.mainCameraMat cv) (a.tempMat cv i) a.chessboard_pattern

/-- Ghost record of one call of `stereo_calibration`: the loop index and the arguments. -/
structure StereoCall where
  camera : Nat
  main_camera_matrix : Matx33
  secondary_camera_matrix : Matx33
  main_dist_coeff : List ℚ
  secondary_dist_coeff : List ℚ
  main_chessboard_corners_list : SampleList
  secondary_chessboard_corners_list : SampleList
  image_size : Size
  chessboard_pattern : Size
  chessboard_square_length : ℚ
deriving DecidableEq

/-- The members and the locals of `TryCalibrate` that live across loop iterations
(source lines 243-245), and the ghost list of solver calls. -/
structure LoopState where
  members : Session
  calibratedAllImages : Bool
  foundAllChessboards : Bool
  transformations : List Transformation
  calls : List StereoCall
deriving DecidableEq

/-- Source lines 258-274 of iteration `i`: the append of the detected pair. -/
def TryCalibrate_append (i : Nat) (foundChessboards : Bool)
    (main_chessboard_corners secondary_chessboard_corners : List Point2f) (L : LoopState) :
    Except Abort LoopState :=
  if foundChessboards = true then
    if L.members.cameraMatCorners.length = i - 1 then
      .ok { L with members :=
        { L.members with
          mainCameraMatCorners := L.members.mainCameraMatCorners ++ [[main_chessboard_corners]]
          cameraMatCorners := L.members.cameraMatCorners ++ [[secondary_chessboard_corners]] } }
    else
      match L.members.mainCameraMatCorners[i - 1]? with
      | none => .error (Abort.out_of_range L.members)
      | some m =>
        let s1 : Session :=
          { L.members with
            mainCameraMatCorners :=
              L.members.mainCameraMatCorners.set (i - 1) (m ++ [main_chessboard_corners]) }
        match s1.cameraMatCorners[i - 1]? with
        | none => .error (Abort.out_of_range s1)
        | some c =>
          .ok { L with members :=
            { s1 with
              cameraMatCorners :=
                s1.cameraMatCorners.set (i - 1) (c ++ [secondary_chessboard_corners]) } }
  else
    .ok { L with foundAllChessboards := false }

/-- The else branch of the solve test (source lines 292-296). -/
def TryCalibrate_skip (L : LoopState) : LoopState :=
  { L with
    transformations := L.transformations ++ [Transformation.identity]
    calibratedAllImages := false }

/-- Source lines 276-296 of iteration `i`: the solve test and its two branches. -/
def TryCalibrate_solve {Mat : Type} (cv : OpenCV Mat) (w : Nat) (a : Args) (i : Nat)
    (L : LoopState) : Except Abort LoopState :=
  if i - 1 < L.members.cameraMatCorners.length then
    match L.members.cameraMatCorners[i - 1]? with
    | none => .error (Abort.out_of_range L.members)
    | some c =>
      if toSizeT w a.requiredImages < c.length then
        match L.members.mainCameraMatCorners[i - 1]? with
        | none => .error (Abort.out_of_range L.members)
        | some m =>
          if m.length = c.length then
            match a.cameraMatrices[0]?, a.cameraMatrices[i]?,
                a.cameraDistCoeffs[0]?, a.cameraDistCoeffs[i]? with
            | some k0, some ki, some d0, some di =>
              .ok { L with
                transformations := L.transformations ++
                  [stereo_calibration cv k0 ki d0 di m c ⟨a.width, a.height⟩
                    a.chessboard_pattern a.chessboardSideLength]
                calls := L.calls ++
                  [⟨i, k0, ki, d0, di, m, c, ⟨a.width, a.height⟩,
                    a.chessboard_pattern, a.chessboardSideLength⟩] }
            | _, _, _, _ => .error (Abort.out_of_range L.members)
          else .ok (TryCalibrate_skip L)
      else .ok (TryCalibrate_skip L)
  else .ok (TryCalibrate_skip L)

/-- One iteration of the loop over the secondary cameras (source lines 246-297). -/
def TryCalibrate_iteration {Mat : Type} (cv : OpenCV Mat) (w : Nat) (a : Args) (i : Nat)
    (L : LoopState) : Except Abort LoopState :=
  match a.detect cv i with
  | .error e => .error e
  | .ok r =>
    match TryCalibrate_append i r.1 r.2.1 r.2.2 L with
    | .error e => .error e
    | .ok L1 => TryCalibrate_solve cv w a i L1

/-- The loop `for (int i = 1; i < numImages; i++)`: `TryCalibrate_loop body i n L` runs the
iterations `i, i + 1, ..., i + n - 1` from state `L`. -/
def TryCalibrate_loop (body : Nat → LoopState → Except Abort LoopState) :
    Nat → Nat → LoopState → Except Abort LoopState
  | _, 0, L => .ok L
  | i, n + 1, L =>
    match body i L with
    | .error e => .error e
    | .ok L1 => TryCalibrate_loop body (i + 1) n L1

/-- The state on entry of the loop (source lines 243-245). -/
def LoopState.entry (s : Session) : LoopState := ⟨s, true, false, [], []⟩

/-- Source lines 243-297: the whole loop of a call with arguments `a` on members `s`. -/
def TryCalibrate_accumulate {Mat : Type} (cv : OpenCV Mat) (w : Nat) (a : Args) (s : Session) :
    Except Abort LoopState :=
  TryCalibrate_loop (TryCalibrate_iteration cv w a) 1 (a.numImages.toNat - 1) (LoopState.entry s)

/-- The assignment `p[idx] = v` on a float buffer. -/
def store (p : Nat → ℚ) (idx : Nat) (v : ℚ) : Nat → ℚ := fun k => if k = idx then v else p k

/-- Source lines 305-325: the eighteen assignments of the block of index `i`, in source order. -/
def TryCalibrate_writeBlock {Mat : Type} (cv : OpenCV Mat) (cameraTransforms : Nat → ℚ) (i : Nat)
    (transformation : Transformation) : Nat → ℚ :=
  let matrixSize := 16
  let rvec := cv.Rodrigues transformation.R
  let p := store cameraTransforms (i * matrixSize) transformation.t.v0
  let p := store p (i * matrixSize + 1) transformation.t.v1
  let p := store p (i * matrixSize + 2) transformation.t.v2
  let p := store p (i * matrixSize + 3) rvec.v0
  let p := store p (i * matrixSize + 4) rvec.v1
  let p := store p (i * matrixSize + 5) rvec.v2
  let p := store p (i * matrixSize + 4) transformation.R.m10
  let p := store p (i * matrixSize + 5) transformation.R.m20
  let p := store p (i * matrixSize + 6) transformation.R.m01
  let p := store p (i * matrixSize + 7) transformation.R.m11
  let p := store p (i * matrixSize + 8) transformation.R.m21
  let p := store p (i * matrixSize + 9) transformation.R.m02
  let p := store p (i * matrixSize + 10) transformation.R.m12
  let p := store p (i * matrixSize + 11) transformation.R.m22
  let p := store p (i * matrixSize + 12) 0
  let p := store p (i * matrixSize + 13) 0
  let p := store p (i * matrixSize + 14) 0
  store p (i * matrixSize + 15) 0

/-- The loop of source lines 303-326 from index `i` over the remaining transformations. -/
def TryCalibrate_emit {Mat : Type} (cv : OpenCV Mat) :
    Nat → List Transformation → (Nat → ℚ) → (Nat → ℚ)
  | _, [], p => p
  | i, tr :: rest, p => TryCalibrate_emit cv (i + 1) rest (TryCalibrate_writeBlock cv p i tr)

/-- What a call that returns normally leaves behind: the returned value, `*completed`, the
buffer `cameraTransforms`, the members, and the ghost list of solver calls. -/
structure Returned where
  result : Bool
  completed : Bool
  cameraTransforms : Nat → ℚ
  members : Session
  calls : List StereoCall

/-- Source lines 299-336: the epilogue of `TryCalibrate` on the state left by the loop. -/
def TryCalibrate_finish {Mat : Type} (cv : OpenCV Mat) (a : Args) (L : LoopState) : Returned :=
  if L.calibratedAllImages = true then
    { result := L.foundAllChessboards
      completed := true
      cameraTransforms := TryCalibrate_emit cv 0 L.transformations a.cameraTransforms
      members := { L.members with mainCameraMatCorners := [], cameraMatCorners := [] }
      calls := L.calls }
  else
    { result := L.foundAllChessboards
      completed := false
      cameraTransforms := a.cameraTransforms
      members := L.members
      calls := L.calls }

/-- Model of `ChessboardStereoCalibration::TryCalibrate` (source lines 199-337) on a platform
whose `size_t` has `w` bits. -/
def TryCalibrate {Mat : Type} (cv : OpenCV Mat) (w : Nat) (a : Args) (s : Session) :
    Except Abort Returned :=
  match TryCalibrate_accumulate cv w a s with
  | .error e => .error e
  | .ok L => .ok (TryCalibrate_finish cv a L)

/-- The members an object can hold: those left by the constructor, by `Initialize`, by a call of
`TryCalibrate` that returns, or by one that throws `std::out_of_range`. -/
inductive Reachable {Mat : Type} (cv : OpenCV Mat) (w : Nat) : Session → Prop
  | constructed : Reachable cv w Session.constructed
  | cleared {s : Session} : Reachable cv w s → Reachable cv w (Initialize s)
  | returned {s : Session} {a : Args} {r : Returned} :
      Reachable cv w s → TryCalibrate cv w a s = .ok r → Reachable cv w r.members
  | thrown {s s1 : Session} {a : Args} :
      Reachable cv w s → TryCalibrate cv w a s = .error (Abort.out_of_range s1) →
      Reachable cv w s1

/-! ## Specification-side notions and a concrete library -/

/-- The displacement from the first to the last point of a non-empty corner sequence. -/
def firstToLast (corners : List Point2f) (h : corners ≠ []) : Vec2f :=
  Point2f.sub (corners.getLast h) (corners.head h)

/-- Equality of results of fallible code is decidable. -/
instance instDecidableEqExcept {ε α : Type} [DecidableEq ε] [DecidableEq α] :
    DecidableEq (Except ε α) := fun a b =>
  match a, b with
  | .ok x, .ok y =>
    if h : x = y then isTrue (by rw [h]) else isFalse (fun h2 => h (Except.ok.inj h2))
  | .error x, .error y =>
    if h : x = y then isTrue (by rw [h]) else isFalse (fun h2 => h (Except.error.inj h2))
  | .ok _, .error _ => isFalse (fun h => by cases h)
  | .error _, .ok _ => isFalse (fun h => by cases h)

/-- A scripted library for concrete runs.  An image is summarised by its first byte: byte `1`
shows a chessboard read from left to right, byte `2` the same chessboard read from right to
left, byte `3` a chessboard read from top to bottom, and any other byte shows no chessboard.
The solver returns the identity transformation. -/
def scriptedCV : OpenCV Nat where
  Mat_8UC4 := fun _ _ data => data 0
  cvtColor_BGRA2BGR := fun m => m
  findChessboardCorners := fun m _ =>
    if m = 1 then (true, [⟨0, 0⟩, ⟨1, 0⟩])
    else if m = 2 then (true, [⟨1, 0⟩, ⟨0, 0⟩])
    else if m = 3 then (true, [⟨0, 0⟩, ⟨0, 1⟩])
    else (false, [])
  stereoCalibrate := fun _ _ _ _ _ _ _ _ => (Matx33.eye, ⟨0, 0, 0⟩)
  Rodrigues := fun _ => ⟨0, 0, 0⟩

/-- A batch for concrete runs: frames of one byte each (`width = height = pixelSize = 1`), a
2 x 1 pattern of unit squares, unit intrinsics and no distortion. -/
def batch (numImages requiredImages : Int) (frames : List Nat) : Args where
  numImages := numImages
  requiredImages := requiredImages
  images := fun k => frames.getD k.toNat 0
  width := 1
  height := 1
  pixelSize := 1
  chessboardWidth := 2
  chessboardHeight := 1
  chessboardSideLength := 1
  cameraProperties := fun _ => 1
  cameraDistCoeffProperties := fun _ => 0
  cameraTransforms := fun _ => 0

/-- Lock-step of the two stores: they have the same number of accumulators, and at every index
the two accumulators hold the same, positive, number of samples. -/
def LockStep (s : Session) : Prop :=
  s.mainCameraMatCorners.length = s.cameraMatCorners.length ∧
  ∀ (j : Nat) (m c : SampleList), s.mainCameraMatCorners[j]? = some m →
    s.cameraMatCorners[j]? = some c → m.length = c.length ∧ 0 < c.length

/-- The condition of source lines 276-278, on the members reached by iteration `i`. -/
def SolveCondition (w : Nat) (a : Args) (i : Nat) (s : Session) : Prop :=
  ∃ m c, s.cameraMatCorners[i - 1]? = some c ∧ toSizeT w a.requiredImages < c.length ∧
    s.mainCameraMatCorners[i - 1]? = some m ∧ m.length = c.length

/-- The samples held by the accumulator of index `j` of a store; no sample when the store has
no accumulator of that index. -/
def samplesAt (store : CornerStore) (j : Nat) : SampleList := (store[j]?).getD []

/-- Loop invariant that holds from every state of the members: `L` is the loop state on entry
of iteration `i` of a call started on members `s`. -/
structure LoopBasic (s : Session) (i : Nat) (L : LoopState) : Prop where
  pnp : L.members.cameraMatCornersPnP = s.cameraMatCornersPnP
  found : L.foundAllChessboards = false
  count : L.transformations.length + 1 = i
  calls_range : ∀ c ∈ L.calls, 1 ≤ c.camera ∧ c.camera < i
  completed_iff : L.calibratedAllImages = true ↔
    ∀ k, 1 ≤ k → k < i → ∃ c ∈ L.calls, c.camera = k

/-- Loop invariant for a call started on members `s` that are in lock-step: `L` is the loop
state on entry of iteration `i`. -/
structure LoopLock {Mat : Type} (cv : OpenCV Mat) (w : Nat) (a : Args) (s : Session) (i : Nat)
    (L : LoopState) : Prop where
  lock : LockStep L.members
  untouched : ∀ j, i - 1 ≤ j →
    L.members.mainCameraMatCorners[j]? = s.mainCameraMatCorners[j]? ∧
    L.members.cameraMatCorners[j]? = s.cameraMatCorners[j]?
  frames : ∀ k, 1 ≤ k → k < i → ∃ r, a.detect cv k = .ok r ∧
    (r.1 = true →
      L.members.mainCameraMatCorners[k - 1]? =
        some (samplesAt s.mainCameraMatCorners (k - 1) ++ [r.2.1]) ∧
      L.members.cameraMatCorners[k - 1]? =
        some (samplesAt s.cameraMatCorners (k - 1) ++ [r.2.2])) ∧
    (r.1 = false →
      L.members.mainCameraMatCorners[k - 1]? = s.mainCameraMatCorners[k - 1]? ∧
      L.members.cameraMatCorners[k - 1]? = s.cameraMatCorners[k - 1]?)
  calls_args : ∀ c ∈ L.calls,
    L.members.mainCameraMatCorners[c.camera - 1]? = some c.main_chessboard_corners_list ∧
    L.members.cameraMatCorners[c.camera - 1]? = some c.secondary_chessboard_corners_list ∧
    c.main_camera_matrix = a.cameraMat 0 ∧
    c.secondary_camera_matrix = a.cameraMat c.camera ∧
    c.main_dist_coeff = a.cameraDistCoeff 0 ∧
    c.secondary_dist_coeff = a.cameraDistCoeff c.camera ∧
    c.image_size = ⟨a.width, a.height⟩ ∧
    c.chessboard_pattern = a.chessboard_pattern ∧
    c.chessboard_square_length = a.chessboardSideLength
  solved_iff : ∀ k, 1 ≤ k → k < i →
    ((∃ c ∈ L.calls, c.camera = k) ↔
      ∃ acc, L.members.cameraMatCorners[k - 1]? = some acc ∧
        toSizeT w a.requiredImages < acc.length)

/-- A library for concrete runs of the helper alone: an image is what the detector reports on
it, the flag and the corners. -/
def oracleCV : OpenCV (Bool × List Point2f) where
  Mat_8UC4 := fun _ _ _ => (false, [])
  cvtColor_BGRA2BGR := fun m => m
  findChessboardCorners := fun m _ => m
  stereoCalibrate := fun _ _ _ _ _ _ _ _ => (Matx33.eye, ⟨0, 0, 0⟩)
  Rodrigues := fun _ => ⟨0, 0, 0⟩

/-- Loop invariant of a call whose converted threshold `toSizeT w requiredImages` is at least
`bound`, started on stores whose accumulators hold fewer than `bound` samples: on entry of
iteration `i` no solver call has been made, no accumulator holds more than `bound` samples, and
those of index `i - 1` and above still hold fewer than `bound`. -/
structure LoopBelow (bound : Nat) (i : Nat) (L : LoopState) : Prop where
  no_calls : L.calls = []
  below : ∀ (j : Nat) (c : SampleList), L.members.cameraMatCorners[j]? = some c →
    c.length ≤ bound ∧ (i - 1 ≤ j → c.length < bound)

/-- The transformation returned by a recorded call of `stereo_calibration`. -/
def StereoCall.run {Mat : Type} (cv : OpenCV Mat) (c : StereoCall) : Transformation :=
  stereo_calibration cv c.main_camera_matrix c.secondary_camera_matrix c.main_dist_coeff
    c.secondary_dist_coeff c.main_chessboard_corners_list c.secondary_chessboard_corners_list
    c.image_size c.chessboard_pattern c.chessboard_square_length

/-- Loop invariant on the local `transformations`: on entry of iteration `i`, the entry of index
`camera - 1` is the transformation returned by the solver call recorded for `camera`. -/
structure LoopTransforms {Mat : Type} (cv : OpenCV Mat) (i : Nat) (L : LoopState) : Prop where
  solved : ∀ c ∈ L.calls, L.transformations[c.camera - 1]? = some (c.run cv)

/-- The sixteen floats of a block once the eighteen assignments of source lines 308-325 are
done, by slot. -/
def TryCalibrate_block {Mat : Type} (cv : OpenCV Mat) (transformation : Transformation) :
    List ℚ :=
  [transformation.t.v0, transformation.t.v1, transformation.t.v2,
   (cv.Rodrigues transformation.R).v0,
   transformation.R.m10, transformation.R.m20,
   transformation.R.m01, transformation.R.m11, transformation.R.m21,
   transformation.R.m02, transformation.R.m12, transformation.R.m22,
   0, 0, 0, 0]

/-- The rotation by a quarter turn about the first axis. -/
def quarterTurn : Matx33 := ⟨1, 0, 0, 0, 0, -1, 0, 1, 0⟩

/-- A scripted library whose solver returns the quarter turn about the first axis with
translation `(1, 2, 3)`, and whose axis-angle conversion returns `(157/100, 0, 0)`, the
axis-angle vector of that rotation to two decimals; images are read as by `scriptedCV`. -/
def quarterTurnCV : OpenCV Nat :=
  { scriptedCV with
    stereoCalibrate := fun _ _ _ _ _ _ _ _ => (quarterTurn, ⟨1, 2, 3⟩)
    Rodrigues := fun _ => ⟨157 / 100, 0, 0⟩ }

/-- The library `quarterTurnCV` with an axis-angle conversion that returns the zero vector. -/
def quarterTurnZeroCV : OpenCV Nat :=
  { quarterTurnCV with Rodrigues := fun _ => ⟨0, 0, 0⟩ }

/-- The batch `batch numImages requiredImages frames` with the square length replaced by
`squareLength`. -/
def batchWithSquare (numImages requiredImages : Int) (frames : List Nat) (squareLength : ℚ) :
    Args :=
  { batch numImages requiredImages frames with chessboardSideLength := squareLength }

/-! ## The corner-ordering heuristic -/

theorem back_eq_getLast (v : List Point2f) (h : v ≠ []) : back v = some (v.getLast h) := by
  simp [back, List.getLast?_eq_getLast, h]

theorem front_eq_head (v : List Point2f) (h : v ≠ []) : front v = some (v.head h) := by
  simp [front, List.head?_eq_head, h]

/-- Value of the helper when both detections succeed on non-empty corner lists. -/
theorem helper_of_found {Mat : Type} (cv : OpenCV Mat) (mi si : Mat) (p : Size)
    (reference secondary : List Point2f)
    (href : cv.findChessboardCorners mi p = (true, reference))
    (hsec : cv.findChessboardCorners si p = (true, secondary))
    (hr : reference ≠ []) (hs : secondary ≠ []) :
    find_chessboard_corners_helper cv mi si p =
      if (Vec2f.dot (firstToLast reference hr) (firstToLast secondary hs)).le_zero = true then
        .ok (true, reference, secondary.reverse)
      else .ok (true, reference, secondary) := by
  simp [find_chessboard_corners_helper, href, hsec, back_eq_getLast _ hr, back_eq_getLast _ hs,
    front_eq_head _ hr, front_eq_head _ hs, firstToLast]

theorem F32.le_zero_of_lt_zero (x : F32) (h : x.lt_zero = true) : x.le_zero = true := by
  cases x with
  | finite q =>
    simp only [F32.lt_zero, decide_eq_true_eq] at h
    simp only [F32.le_zero, decide_eq_true_eq]
    exact le_of_lt h
  | infinite negative => exact h
  | nan => exact h

theorem F32.le_zero_of_gt_zero (x : F32) (h : x.gt_zero = true) : x.le_zero = false := by
  cases x with
  | finite q =>
    simp only [F32.gt_zero, decide_eq_true_eq] at h
    simp only [F32.le_zero, decide_eq_false_iff_not, not_le]
    exact h
  | infinite negative =>
    cases negative with
    | false => rfl
    | true => exact Bool.noConfusion h
  | nan => rfl

/-- C9 (counterexample).  Two detected sequences of equal length 2 whose first-to-last
displacements `(1, 0)` and `(0, 1)` have dot product zero (not negative): the helper does not
leave the secondary sequence unchanged, it reverses it. -/
theorem resolve_zero_dot_counterexample :
    scriptedCV.findChessboardCorners 1 ⟨2, 1⟩ = (true, [⟨0, 0⟩, ⟨1, 0⟩]) ∧
    scriptedCV.findChessboardCorners 3 ⟨2, 1⟩ = (true, [⟨0, 0⟩, ⟨0, 1⟩]) ∧
    ([⟨0, 0⟩, ⟨1, 0⟩] : List Point2f).length = ([⟨0, 0⟩, ⟨0, 1⟩] : List Point2f).length ∧
    Vec2f.dot (firstToLast [⟨0, 0⟩, ⟨1, 0⟩] (List.cons_ne_nil _ _))
      (firstToLast [⟨0, 0⟩, ⟨0, 1⟩] (List.cons_ne_nil _ _)) = F32.finite 0 ∧
    find_chessboard_corners_helper scriptedCV 1 3 ⟨2, 1⟩ =
      .ok (true, [⟨0, 0⟩, ⟨1, 0⟩], [⟨0, 1⟩, ⟨0, 0⟩]) ∧
    find_chessboard_corners_helper scriptedCV 1 3 ⟨2, 1⟩ ≠
      .ok (true, [⟨0, 0⟩, ⟨1, 0⟩], [⟨0, 0⟩, ⟨0, 1⟩]) :=
  ⟨by decide!, by decide!, by decide, by decide!, by decide!, by decide!⟩

/-- C9 (amended).  For detected corner sequences of equal, positive length: if the dot product of
the two first-to-last displacements, as the code computes it in `float`, is negative or zero,
the resolved secondary sequence is the exact reverse of the input; if it is positive, the
resolved secondary sequence is the input unchanged. -/
theorem resolve_by_sign_of_dot {Mat : Type} (cv : OpenCV Mat) (mi si : Mat) (p : Size)
    (reference secondary : List Point2f)
    (href : cv.findChessboardCorners mi p = (true, reference))
    (hsec : cv.findChessboardCorners si p = (true, secondary))
    (hlen : reference.length = secondary.length) (hpos : 0 < reference.length) :
    ((Vec2f.dot (firstToLast reference (List.ne_nil_of_length_pos hpos))
          (firstToLast secondary (List.ne_nil_of_length_pos (hlen ▸ hpos)))).lt_zero = true →
        find_chessboard_corners_helper cv mi si p = .ok (true, reference, secondary.reverse)) ∧
      (Vec2f.dot (firstToLast reference (List.ne_nil_of_length_pos hpos))
          (firstToLast secondary (List.ne_nil_of_length_pos (hlen ▸ hpos))) = F32.finite 0 →
        find_chessboard_corners_helper cv mi si p = .ok (true, reference, secondary.reverse)) ∧
      ((Vec2f.dot (firstToLast reference (List.ne_nil_of_length_pos hpos))
          (firstToLast secondary (List.ne_nil_of_length_pos (hlen ▸ hpos)))).gt_zero = true →
        find_chessboard_corners_helper cv mi si p = .ok (true, reference, secondary)) := by
  rw [helper_of_found cv mi si p reference secondary href hsec
    (List.ne_nil_of_length_pos hpos) (List.ne_nil_of_length_pos (hlen ▸ hpos))]
  refine ⟨fun h => by rw [if_pos (F32.le_zero_of_lt_zero _ h)],
    fun h => by rw [h, if_pos (by decide)],
    fun h => by rw [if_neg (by rw [F32.le_zero_of_gt_zero _ h]; exact Bool.false_ne_true)]⟩

/-- Instances of the amended C9: perpendicular displacements (dot product zero) reverse the
secondary sequence, and so do the displacements `(1 + 2^-12, 1)` and `(1 + 2^-12, -1 - 2^-11)`,
whose exact dot product `2^-24` is computed as `0` in `float`. -/
theorem resolve_by_sign_of_dot_witness :
    find_chessboard_corners_helper scriptedCV 1 3 ⟨2, 1⟩ =
      .ok (true, [⟨0, 0⟩, ⟨1, 0⟩], [⟨0, 1⟩, ⟨0, 0⟩]) ∧
    find_chessboard_corners_helper oracleCV (true, [⟨0, 0⟩, ⟨4097 / 4096, 1⟩])
        (true, [⟨0, 2⟩, ⟨4097 / 4096, 2047 / 2048⟩]) ⟨2, 1⟩ =
      .ok (true, [⟨0, 0⟩, ⟨4097 / 4096, 1⟩], [⟨4097 / 4096, 2047 / 2048⟩, ⟨0, 2⟩]) :=
  ⟨(resolve_by_sign_of_dot scriptedCV 1 3 ⟨2, 1⟩
      [⟨0, 0⟩, ⟨1, 0⟩] [⟨0, 0⟩, ⟨0, 1⟩] (by decide!) (by decide!) (by decide) (by decide)).2.1
      (by decide!),
   (resolve_by_sign_of_dot oracleCV (true, [⟨0, 0⟩, ⟨4097 / 4096, 1⟩])
      (true, [⟨0, 2⟩, ⟨4097 / 4096, 2047 / 2048⟩]) ⟨2, 1⟩ [⟨0, 0⟩, ⟨4097 / 4096, 1⟩]
      [⟨0, 2⟩, ⟨4097 / 4096, 2047 / 2048⟩] rfl rfl (by decide) (by decide)).2.1 (by decide!)⟩

/-! ## World-pattern generation -/

theorem flatMap_range_grid {α : Type} (f : Nat → Nat → α) (C : Nat) :
    ∀ R : Nat,
      ((List.range R).flatMap fun h => (List.range C).map fun w => f h w).length = R * C ∧
      ∀ r c : Nat, r < R → c < C →
        ((List.range R).flatMap fun h => (List.range C).map fun w => f h w)[r * C + c]? =
          some (f r c) := by
  intro R
  induction R with
  | zero => simp
  | succ R ih =>
    obtain ⟨hlen, hidx⟩ := ih
    have hsplit : ((List.range (R + 1)).flatMap fun h => (List.range C).map fun w => f h w) =
        ((List.range R).flatMap fun h => (List.range C).map fun w => f h w) ++
          (List.range C).map fun w => f R w := by
      simp [List.range_succ, List.flatMap_append]
    rw [hsplit]
    refine ⟨by simp [hlen, Nat.succ_mul], ?_⟩
    intro r c hr hc
    rcases Nat.lt_succ_iff_lt_or_eq.mp hr with hlt | heq
    · have hb : r * C + c < R * C := by
        calc r * C + c < r * C + C := by omega
          _ = (r + 1) * C := by ring
          _ ≤ R * C := Nat.mul_le_mul_right C hlt
      rw [List.getElem?_append_left (by rw [hlen]; exact hb)]
      exact hidx r c hlt hc
    · subst heq
      rw [List.getElem?_append_right (by rw [hlen]; omega), hlen]
      simp [hc]

/-- C10.  World-pattern generation: for `rows = chessboardHeight > 0`,
`cols = chessboardWidth > 0` and every square size `s`, the list `chessboard_corners_world` built
by `stereo_calibration` has `rows * cols` points and the point of index `r * cols + c`
(`r < rows`, `c < cols`) is `(c * s, r * s, 0)`; for `rows = 2`, `cols = 3`, `s = 10` the list is
`(0,0,0), (10,0,0), (20,0,0), (0,10,0), (10,10,0), (20,10,0)`. -/
theorem world_pattern_generation (chessboardWidth chessboardHeight : Int) (squareSize : ℚ)
    (hrows : 0 < chessboardHeight) (hcols : 0 < chessboardWidth) :
    (chessboard_corners_world ⟨chessboardWidth, chessboardHeight⟩ squareSize).length =
        chessboardHeight.toNat * chessboardWidth.toNat ∧
      (∀ r c : Nat, (r : Int) < chessboardHeight → (c : Int) < chessboardWidth →
        (chessboard_corners_world ⟨chessboardWidth, chessboardHeight⟩ squareSize)[
            r * chessboardWidth.toNat + c]? =
          some ⟨(c : ℚ) * squareSize, (r : ℚ) * squareSize, 0⟩) ∧
      chessboard_corners_world ⟨3, 2⟩ 10 =
        [⟨0, 0, 0⟩, ⟨10, 0, 0⟩, ⟨20, 0, 0⟩, ⟨0, 10, 0⟩, ⟨10, 10, 0⟩, ⟨20, 10, 0⟩] := by
  have hg := flatMap_range_grid
    (fun h w => (⟨(w : ℚ) * squareSize, (h : ℚ) * squareSize, 0⟩ : Point3f))
    chessboardWidth.toNat chessboardHeight.toNat
  refine ⟨hg.1, ?_, by decide!⟩
  intro r c hr hc
  exact hg.2 r c (by omega) (by omega)

/-- Instance of C10: in the 2 x 3 pattern with squares of side 5/2, the point of row 1 and
column 2 is `(5, 5/2, 0)`. -/
theorem world_pattern_generation_witness :
    (0 : Int) < 2 ∧ (0 : Int) < 3 ∧
    (chessboard_corners_world ⟨3, 2⟩ (5 / 2))[1 * 3 + 2]? = some ⟨5, 5 / 2, 0⟩ := by
  refine ⟨by decide, by decide, ?_⟩
  have h := (world_pattern_generation 3 2 (5 / 2) (by decide) (by decide)).2.1 1 2
    (by decide) (by decide)
  norm_num at h ⊢
  exact h

/-! ## The accumulation state machine -/

theorem append_spec (i : Nat) (f : Bool) (mc sc : List Point2f) (L L1 : LoopState)
    (h : TryCalibrate_append i f mc sc L = .ok L1) :
    L1.calls = L.calls ∧ L1.calibratedAllImages = L.calibratedAllImages ∧
    L1.transformations = L.transformations ∧
    L1.members.cameraMatCornersPnP = L.members.cameraMatCornersPnP ∧
    (L.foundAllChessboards = false → L1.foundAllChessboards = false) ∧
    (f = false → L1.members = L.members) ∧
    (f = true →
      (L.members.cameraMatCorners.length = i - 1 ∧
        L1.members.mainCameraMatCorners = L.members.mainCameraMatCorners ++ [[mc]] ∧
        L1.members.cameraMatCorners = L.members.cameraMatCorners ++ [[sc]]) ∨
      (L.members.cameraMatCorners.length ≠ i - 1 ∧
        ∃ m c, L.members.mainCameraMatCorners[i - 1]? = some m ∧
          L.members.cameraMatCorners[i - 1]? = some c ∧
          L1.members.mainCameraMatCorners = L.members.mainCameraMatCorners.set (i - 1) (m ++ [mc]) ∧
          L1.members.cameraMatCorners = L.members.cameraMatCorners.set (i - 1) (c ++ [sc]))) := by
  unfold TryCalibrate_append at h
  cases f with
  | false =>
    simp at h
    subst h
    simp
  | true =>
    simp only [if_true] at h
    by_cases hlen : L.members.cameraMatCorners.length = i - 1
    · rw [if_pos hlen] at h
      cases h
      simp [hlen]
    · rw [if_neg hlen] at h
      cases hm : L.members.mainCameraMatCorners[i - 1]? with
      | none => simp [hm] at h
      | some m =>
        cases hc : L.members.cameraMatCorners[i - 1]? with
        | none => simp [hm, hc] at h
        | some c =>
          simp [hm, hc] at h
          subst h
          simp [hlen]

theorem append_error (i : Nat) (f : Bool) (mc sc : List Point2f) (L : LoopState) (e : Abort)
    (h : TryCalibrate_append i f mc sc L = .error e) :
    f = true ∧ L.members.cameraMatCorners.length ≠ i - 1 ∧
    ((L.members.mainCameraMatCorners[i - 1]? = none ∧ e = Abort.out_of_range L.members) ∨
     (L.members.cameraMatCorners[i - 1]? = none ∧
        ∃ m, L.members.mainCameraMatCorners[i - 1]? = some m)) := by
  unfold TryCalibrate_append at h
  cases f with
  | false => simp at h
  | true =>
    simp only [if_true] at h
    by_cases hlen : L.members.cameraMatCorners.length = i - 1
    · rw [if_pos hlen] at h
      cases h
    · rw [if_neg hlen] at h
      refine ⟨rfl, hlen, ?_⟩
      cases hm : L.members.mainCameraMatCorners[i - 1]? with
      | none =>
        simp [hm] at h
        exact Or.inl ⟨rfl, h.symm⟩
      | some m =>
        cases hc : L.members.cameraMatCorners[i - 1]? with
        | none => exact Or.inr ⟨rfl, m, rfl⟩
        | some c => simp [hm, hc] at h

theorem solve_spec {Mat : Type} (cv : OpenCV Mat) (w : Nat) (a : Args) (i : Nat)
    (L L1 : LoopState) (h : TryCalibrate_solve cv w a i L = .ok L1) :
    L1.members = L.members ∧ L1.foundAllChessboards = L.foundAllChessboards ∧
    L1.transformations.length = L.transformations.length + 1 ∧
    ((¬ SolveCondition w a i L.members ∧ L1.calls = L.calls ∧ L1.calibratedAllImages = false) ∨
     (L1.calibratedAllImages = L.calibratedAllImages ∧
      ∃ m c k0 ki d0 di, L.members.cameraMatCorners[i - 1]? = some c ∧
        toSizeT w a.requiredImages < c.length ∧
        L.members.mainCameraMatCorners[i - 1]? = some m ∧ m.length = c.length ∧
        a.cameraMatrices[0]? = some k0 ∧ a.cameraMatrices[i]? = some ki ∧
        a.cameraDistCoeffs[0]? = some d0 ∧ a.cameraDistCoeffs[i]? = some di ∧
        L1.calls = L.calls ++ [⟨i, k0, ki, d0, di, m, c, ⟨a.width, a.height⟩,
          a.chessboard_pattern, a.chessboardSideLength⟩])) := by
  unfold TryCalibrate_solve at h
  by_cases hlt : i - 1 < L.members.cameraMatCorners.length
  · rw [if_pos hlt] at h
    cases hc : L.members.cameraMatCorners[i - 1]? with
    | none => simp [hc] at h
    | some c =>
      simp only [hc] at h
      by_cases hreq : toSizeT w a.requiredImages < c.length
      · rw [if_pos hreq] at h
        cases hm : L.members.mainCameraMatCorners[i - 1]? with
        | none => simp [hm] at h
        | some m =>
          simp only [hm] at h
          by_cases heq : m.length = c.length
          · rw [if_pos heq] at h
            cases h0 : a.cameraMatrices[0]? with
            | none => simp [h0] at h
            | some k0 =>
              cases hi : a.cameraMatrices[i]? with
              | none => simp [h0, hi] at h
              | some ki =>
                cases hd0 : a.cameraDistCoeffs[0]? with
                | none => simp [h0, hi, hd0] at h
                | some d0 =>
                  cases hdi : a.cameraDistCoeffs[i]? with
                  | none => simp [h0, hi, hd0, hdi] at h
                  | some di =>
                    simp only [h0, hi, hd0, hdi] at h
                    cases h
                    refine ⟨rfl, rfl, by simp, Or.inr ⟨rfl, m, c, k0, ki, d0, di, ?_⟩⟩
                    simp [hreq, heq]
          · rw [if_neg heq] at h
            cases h
            refine ⟨rfl, rfl, by simp [TryCalibrate_skip], Or.inl ⟨?_, rfl, rfl⟩⟩
            rintro ⟨m1, c1, h1, -, h3, h4⟩
            rw [hc] at h1
            rw [hm] at h3
            cases h1
            cases h3
            exact heq h4
      · rw [if_neg hreq] at h
        cases h
        refine ⟨rfl, rfl, by simp [TryCalibrate_skip], Or.inl ⟨?_, rfl, rfl⟩⟩
        rintro ⟨m1, c1, h1, h2, -, -⟩
        rw [hc] at h1
        cases h1
        exact hreq h2
  · rw [if_neg hlt] at h
    cases h
    refine ⟨rfl, rfl, by simp [TryCalibrate_skip], Or.inl ⟨?_, rfl, rfl⟩⟩
    rintro ⟨m1, c1, h1, -, -, -⟩
    have := List.getElem?_eq_none (Nat.le_of_not_lt hlt)
    rw [this] at h1
    cases h1

theorem solve_error {Mat : Type} (cv : OpenCV Mat) (w : Nat) (a : Args) (i : Nat)
    (L : LoopState) (e : Abort) (h : TryCalibrate_solve cv w a i L = .error e) :
    e = Abort.out_of_range L.members := by
  unfold TryCalibrate_solve at h
  split at h
  · split at h
    · cases h; rfl
    · split at h
      · split at h
        · cases h; rfl
        · split at h
          · split at h
            · cases h
            · cases h; rfl
          · cases h
      · cases h
  · cases h

theorem cameraMatrices_getElem? (a : Args) (i : Nat) (h : i < a.numImages.toNat) :
    a.cameraMatrices[i]? = some (a.cameraMat i) := by
  simp [Args.cameraMatrices, List.getElem?_map, List.getElem?_range h]

theorem cameraDistCoeffs_getElem? (a : Args) (i : Nat) (h : i < a.numImages.toNat) :
    a.cameraDistCoeffs[i]? = some (a.cameraDistCoeff i) := by
  simp [Args.cameraDistCoeffs, List.getElem?_map, List.getElem?_range h]

theorem lockStep_getElem? (s : Session) (hs : LockStep s) (j : Nat) (c : SampleList)
    (hc : s.cameraMatCorners[j]? = some c) :
    ∃ m, s.mainCameraMatCorners[j]? = some m ∧ m.length = c.length ∧ 0 < c.length := by
  have hj : j < s.cameraMatCorners.length := by
    by_contra hcon
    rw [List.getElem?_eq_none (Nat.le_of_not_lt hcon)] at hc
    cases hc
  have hj2 : j < s.mainCameraMatCorners.length := by rw [hs.1]; exact hj
  refine ⟨s.mainCameraMatCorners[j], List.getElem?_eq_getElem hj2, ?_⟩
  exact hs.2 j _ c (List.getElem?_eq_getElem hj2) hc

theorem lockStep_getElem?_main (s : Session) (hs : LockStep s) (j : Nat) (m : SampleList)
    (hm : s.mainCameraMatCorners[j]? = some m) :
    ∃ c, s.cameraMatCorners[j]? = some c ∧ m.length = c.length ∧ 0 < c.length := by
  have hj : j < s.mainCameraMatCorners.length := by
    by_contra hcon
    rw [List.getElem?_eq_none (Nat.le_of_not_lt hcon)] at hm
    cases hm
  have hj2 : j < s.cameraMatCorners.length := by rw [← hs.1]; exact hj
  refine ⟨s.cameraMatCorners[j], List.getElem?_eq_getElem hj2, ?_⟩
  exact hs.2 j m _ hm (List.getElem?_eq_getElem hj2)

theorem solveCondition_iff (w : Nat) (a : Args) (i : Nat) (s : Session) (hs : LockStep s) :
    SolveCondition w a i s ↔
      ∃ c, s.cameraMatCorners[i - 1]? = some c ∧ toSizeT w a.requiredImages < c.length := by
  constructor
  · rintro ⟨m, c, h1, h2, -, -⟩
    exact ⟨c, h1, h2⟩
  · rintro ⟨c, h1, h2⟩
    obtain ⟨m, hm, hlen, -⟩ := lockStep_getElem? s hs (i - 1) c h1
    exact ⟨m, c, h1, h2, hm, hlen⟩

theorem solve_total {Mat : Type} (cv : OpenCV Mat) (w : Nat) (a : Args) (i : Nat)
    (L : LoopState) (hs : LockStep L.members) (hi : i < a.numImages.toNat) :
    ∃ L1, TryCalibrate_solve cv w a i L = .ok L1 := by
  cases h : TryCalibrate_solve cv w a i L with
  | ok L1 => exact ⟨L1, rfl⟩
  | error e =>
    exfalso
    unfold TryCalibrate_solve at h
    rw [cameraMatrices_getElem? a 0 (by omega), cameraMatrices_getElem? a i hi,
      cameraDistCoeffs_getElem? a 0 (by omega), cameraDistCoeffs_getElem? a i hi] at h
    split at h
    · rename_i hlt
      rw [List.getElem?_eq_getElem hlt] at h
      simp only at h
      obtain ⟨m, hm, -, -⟩ := lockStep_getElem? L.members hs (i - 1) _
        (List.getElem?_eq_getElem hlt)
      rw [hm] at h
      simp only at h
      split at h
      · split at h
        · cases h
        · cases h
      · cases h
    · cases h

theorem getElem?_snoc_of_ne {α : Type} (l : List α) (x : α) (j : Nat) (h : j ≠ l.length) :
    (l ++ [x])[j]? = l[j]? := by
  rcases Nat.lt_or_gt_of_ne h with hlt | hgt
  · exact List.getElem?_append_left hlt
  · rw [List.getElem?_eq_none (by simp; omega), List.getElem?_eq_none (by omega)]

theorem getElem?_snoc_length {α : Type} (l : List α) (x : α) :
    (l ++ [x])[l.length]? = some x := by
  simp

theorem append_frame (i : Nat) (f : Bool) (mc sc : List Point2f) (L L1 : LoopState)
    (hs : LockStep L.members) (h : TryCalibrate_append i f mc sc L = .ok L1) :
    LockStep L1.members ∧
    (∀ j, j ≠ i - 1 →
      L1.members.mainCameraMatCorners[j]? = L.members.mainCameraMatCorners[j]? ∧
      L1.members.cameraMatCorners[j]? = L.members.cameraMatCorners[j]?) ∧
    (f = true →
      L1.members.mainCameraMatCorners[i - 1]? =
        some (samplesAt L.members.mainCameraMatCorners (i - 1) ++ [mc]) ∧
      L1.members.cameraMatCorners[i - 1]? =
        some (samplesAt L.members.cameraMatCorners (i - 1) ++ [sc])) ∧
    (f = false → L1.members = L.members) := by
  obtain ⟨-, -, -, -, -, hfalse, htrue⟩ := append_spec i f mc sc L L1 h
  cases f with
  | false =>
    have hm := hfalse rfl
    rw [hm]
    exact ⟨hs, fun _ _ => ⟨rfl, rfl⟩, fun hcon => Bool.noConfusion hcon, fun _ => rfl⟩
  | true =>
    refine ⟨?_, ?_, fun _ => ?_, fun hcon => Bool.noConfusion hcon⟩
    · rcases htrue rfl with ⟨hlen, hmain, hsec⟩ | ⟨-, m0, c0, hm0, hc0, hmain, hsec⟩
      · refine ⟨by rw [hmain, hsec]; simp [hs.1], ?_⟩
        intro j m c hm hc
        rw [hmain] at hm
        rw [hsec] at hc
        by_cases hj : j = L.members.cameraMatCorners.length
        · subst hj
          rw [getElem?_snoc_length] at hc
          rw [← hs.1, getElem?_snoc_length] at hm
          cases hm
          cases hc
          simp
        · rw [getElem?_snoc_of_ne _ _ _ hj] at hc
          rw [getElem?_snoc_of_ne _ _ _ (by rw [hs.1]; exact hj)] at hm
          exact hs.2 j m c hm hc
      · refine ⟨by rw [hmain, hsec]; simp [hs.1], ?_⟩
        intro j m c hm hc
        rw [hmain] at hm
        rw [hsec] at hc
        by_cases hj : i - 1 = j
        · subst hj
          have h1 := List.getElem?_set_eq_of_lt (m0 ++ [mc])
            (show i - 1 < L.members.mainCameraMatCorners.length by
              by_contra hcon
              rw [List.getElem?_eq_none (Nat.le_of_not_lt hcon)] at hm0
              cases hm0)
          have h2 := List.getElem?_set_eq_of_lt (c0 ++ [sc])
            (show i - 1 < L.members.cameraMatCorners.length by
              by_contra hcon
              rw [List.getElem?_eq_none (Nat.le_of_not_lt hcon)] at hc0
              cases hc0)
          rw [h1] at hm
          rw [h2] at hc
          cases hm
          cases hc
          have := hs.2 (i - 1) m0 c0 hm0 hc0
          simp [this.1]
        · rw [List.getElem?_set_ne hj] at hm hc
          exact hs.2 j m c hm hc
    · intro j hj
      rcases htrue rfl with ⟨hlen, hmain, hsec⟩ | ⟨-, m0, c0, hm0, hc0, hmain, hsec⟩
      · rw [hmain, hsec]
        exact ⟨getElem?_snoc_of_ne _ _ _ (by rw [hs.1, hlen]; exact hj),
          getElem?_snoc_of_ne _ _ _ (by rw [hlen]; exact hj)⟩
      · rw [hmain, hsec]
        exact ⟨List.getElem?_set_ne (Ne.symm hj), List.getElem?_set_ne (Ne.symm hj)⟩
    · rcases htrue rfl with ⟨hlen, hmain, hsec⟩ | ⟨-, m0, c0, hm0, hc0, hmain, hsec⟩
      · rw [hmain, hsec]
        have e1 : samplesAt L.members.mainCameraMatCorners (i - 1) = [] := by
          simp [samplesAt, List.getElem?_eq_none, hs.1, hlen]
        have e2 : samplesAt L.members.cameraMatCorners (i - 1) = [] := by
          simp [samplesAt, List.getElem?_eq_none, hlen]
        rw [e1, e2, ← hlen]
        refine ⟨?_, getElem?_snoc_length _ _⟩
        rw [← hs.1]
        exact getElem?_snoc_length _ _
      · rw [hmain, hsec]
        have e1 : samplesAt L.members.mainCameraMatCorners (i - 1) = m0 := by
          simp [samplesAt, hm0]
        have e2 : samplesAt L.members.cameraMatCorners (i - 1) = c0 := by
          simp [samplesAt, hc0]
        rw [e1, e2]
        refine ⟨List.getElem?_set_eq_of_lt _ ?_, List.getElem?_set_eq_of_lt _ ?_⟩
        · by_contra hcon
          rw [List.getElem?_eq_none (Nat.le_of_not_lt hcon)] at hm0
          cases hm0
        · by_contra hcon
          rw [List.getElem?_eq_none (Nat.le_of_not_lt hcon)] at hc0
          cases hc0

theorem append_error_lockStep (i : Nat) (f : Bool) (mc sc : List Point2f) (L : LoopState)
    (e : Abort) (hs : LockStep L.members) (h : TryCalibrate_append i f mc sc L = .error e) :
    e = Abort.out_of_range L.members ∧ f = true ∧
      L.members.cameraMatCorners.length < i - 1 := by
  obtain ⟨hf, hlen, hcase | ⟨hc, m, hm⟩⟩ := append_error i f mc sc L e h
  · refine ⟨hcase.2, hf, ?_⟩
    have := hcase.1
    rw [List.getElem?_eq_none_iff] at this
    rw [hs.1] at this
    omega
  · exfalso
    obtain ⟨c, hc2, -⟩ := lockStep_getElem?_main L.members hs (i - 1) m hm
    rw [hc] at hc2
    cases hc2

theorem helper_error {Mat : Type} (cv : OpenCV Mat) (mi si : Mat) (p : Size) (e : Abort)
    (h : find_chessboard_corners_helper cv mi si p = .error e) :
    e = Abort.undefined_behaviour := by
  unfold find_chessboard_corners_helper at h
  simp only at h
  split at h
  · cases h
  · split at h
    · split at h <;> cases h
    · cases h
      rfl

theorem helper_ok_flag {Mat : Type} (cv : OpenCV Mat) (mi si : Mat) (p : Size)
    (r : Bool × List Point2f × List Point2f)
    (h : find_chessboard_corners_helper cv mi si p = .ok r) :
    r.1 = ((cv.findChessboardCorners mi p).1 && (cv.findChessboardCorners si p).1) ∧
    r.2.1 = (cv.findChessboardCorners mi p).2 := by
  unfold find_chessboard_corners_helper at h
  simp only at h
  split at h
  · rename_i hc
    cases h
    refine ⟨?_, rfl⟩
    cases h1 : (cv.findChessboardCorners mi p).1 <;>
      cases h2 : (cv.findChessboardCorners si p).1 <;> simp_all
  · rename_i hc
    have hb : ((cv.findChessboardCorners mi p).1 && (cv.findChessboardCorners si p).1) = true := by
      cases h1 : (cv.findChessboardCorners mi p).1 <;>
        cases h2 : (cv.findChessboardCorners si p).1 <;> simp_all
    split at h
    · split at h <;> cases h <;> exact ⟨hb.symm, rfl⟩
    · cases h

theorem helper_of_not_found {Mat : Type} (cv : OpenCV Mat) (mi si : Mat) (p : Size)
    (h : ((cv.findChessboardCorners mi p).1 && (cv.findChessboardCorners si p).1) = false) :
    find_chessboard_corners_helper cv mi si p =
      .ok (false, (cv.findChessboardCorners mi p).2, (cv.findChessboardCorners si p).2) := by
  unfold find_chessboard_corners_helper
  simp only
  rw [if_pos]
  cases h1 : (cv.findChessboardCorners mi p).1 <;>
    cases h2 : (cv.findChessboardCorners si p).1 <;> simp_all

theorem iteration_ok {Mat : Type} (cv : OpenCV Mat) (w : Nat) (a : Args) (i : Nat)
    (L L1 : LoopState) (h : TryCalibrate_iteration cv w a i L = .ok L1) :
    ∃ r L0, a.detect cv i = .ok r ∧ TryCalibrate_append i r.1 r.2.1 r.2.2 L = .ok L0 ∧
      TryCalibrate_solve cv w a i L0 = .ok L1 := by
  unfold TryCalibrate_iteration at h
  cases hd : a.detect cv i with
  | error e => simp [hd] at h
  | ok r =>
    simp only [hd] at h
    cases ha : TryCalibrate_append i r.1 r.2.1 r.2.2 L with
    | error e => simp [ha] at h
    | ok L0 =>
      simp only [ha] at h
      exact ⟨r, L0, rfl, ha, h⟩

theorem iteration_error {Mat : Type} (cv : OpenCV Mat) (w : Nat) (a : Args) (i : Nat)
    (L : LoopState) (e : Abort) (h : TryCalibrate_iteration cv w a i L = .error e) :
    a.detect cv i = .error e ∨
    (∃ r, a.detect cv i = .ok r ∧ TryCalibrate_append i r.1 r.2.1 r.2.2 L = .error e) ∨
    (∃ r L0, a.detect cv i = .ok r ∧ TryCalibrate_append i r.1 r.2.1 r.2.2 L = .ok L0 ∧
      TryCalibrate_solve cv w a i L0 = .error e) := by
  unfold TryCalibrate_iteration at h
  cases hd : a.detect cv i with
  | error e1 =>
    simp only [hd] at h
    cases h
    exact Or.inl rfl
  | ok r =>
    simp only [hd] at h
    cases ha : TryCalibrate_append i r.1 r.2.1 r.2.2 L with
    | error e1 =>
      simp only [ha] at h
      cases h
      exact Or.inr (Or.inl ⟨r, rfl, ha⟩)
    | ok L0 =>
      simp only [ha] at h
      exact Or.inr (Or.inr ⟨r, L0, rfl, ha, h⟩)

theorem iteration_basic {Mat : Type} (cv : OpenCV Mat) (w : Nat) (a : Args) (s : Session)
    (i : Nat) (L L1 : LoopState) (hi : 1 ≤ i) (hinv : LoopBasic s i L)
    (h : TryCalibrate_iteration cv w a i L = .ok L1) : LoopBasic s (i + 1) L1 := by
  obtain ⟨r, L0, -, ha, hsol⟩ := iteration_ok cv w a i L L1 h
  obtain ⟨hcalls, hcal, htr, hpnp, hfound, -, -⟩ := append_spec i r.1 r.2.1 r.2.2 L L0 ha
  obtain ⟨hmem, hf, hlen, hcase⟩ := solve_spec cv w a i L0 L1 hsol
  refine ⟨by rw [hmem, hpnp]; exact hinv.pnp, by rw [hf]; exact hfound hinv.found,
    by rw [hlen, htr]; have := hinv.count; omega, ?_, ?_⟩
  · rcases hcase with ⟨-, hc, -⟩ | ⟨-, m, c, k0, ki, d0, di, -, -, -, -, -, -, -, -, hc⟩
    · intro c hcm
      rw [hc, hcalls] at hcm
      have := hinv.calls_range c hcm
      omega
    · intro c1 hcm
      rw [hc, hcalls, List.mem_append, List.mem_singleton] at hcm
      rcases hcm with hcm | hcm
      · have := hinv.calls_range c1 hcm
        omega
      · subst hcm
        simp only
        omega
  · rcases hcase with ⟨-, hc, hfalse⟩ | ⟨hsame, m, c, k0, ki, d0, di, -, -, -, -, -, -, -, -, hc⟩
    · rw [hfalse]
      constructor
      · intro hcon
        cases hcon
      · intro hall
        exfalso
        obtain ⟨c, hcm, hcam⟩ := hall i hi (Nat.lt_succ_self i)
        rw [hc, hcalls] at hcm
        have := hinv.calls_range c hcm
        omega
    · rw [hsame, hcal, hinv.completed_iff, hc, hcalls]
      constructor
      · intro hall k hk1 hk2
        rcases Nat.lt_succ_iff_lt_or_eq.mp hk2 with hlt | heq
        · obtain ⟨c1, hc1, hcam⟩ := hall k hk1 hlt
          exact ⟨c1, List.mem_append_left _ hc1, hcam⟩
        · exact ⟨_, List.mem_append_right _ (List.mem_singleton_self _), heq.symm⟩
      · intro hall k hk1 hk2
        obtain ⟨c1, hc1, hcam⟩ := hall k hk1 (Nat.lt_succ_of_lt hk2)
        rw [List.mem_append, List.mem_singleton] at hc1
        rcases hc1 with hc1 | hc1
        · exact ⟨c1, hc1, hcam⟩
        · subst hc1
          simp only at hcam
          omega

theorem iteration_lock {Mat : Type} (cv : OpenCV Mat) (w : Nat) (a : Args) (s : Session)
    (i : Nat) (L L1 : LoopState) (hi : 1 ≤ i) (hstop : i < a.numImages.toNat)
    (hb : LoopBasic s i L) (hinv : LoopLock cv w a s i L)
    (h : TryCalibrate_iteration cv w a i L = .ok L1) : LoopLock cv w a s (i + 1) L1 := by
  obtain ⟨r, L0, hd, ha, hsol⟩ := iteration_ok cv w a i L L1 h
  obtain ⟨hcalls, -, -, -, -, -, -⟩ := append_spec i r.1 r.2.1 r.2.2 L L0 ha
  obtain ⟨hlock0, hother, htrue, hfalse⟩ := append_frame i r.1 r.2.1 r.2.2 L L0 hinv.lock ha
  obtain ⟨hmem, -, -, hcase⟩ := solve_spec cv w a i L0 L1 hsol
  have hsame : ∀ k, 1 ≤ k → k < i →
      L1.members.mainCameraMatCorners[k - 1]? = L.members.mainCameraMatCorners[k - 1]? ∧
      L1.members.cameraMatCorners[k - 1]? = L.members.cameraMatCorners[k - 1]? := by
    intro k hk1 hk2
    rw [hmem]
    exact hother (k - 1) (by omega)
  have hcond := solveCondition_iff w a i L0.members hlock0
  refine ⟨by rw [hmem]; exact hlock0, ?_, ?_, ?_, ?_⟩
  · intro j hj
    rw [hmem, (hother j (by omega)).1, (hother j (by omega)).2]
    exact hinv.untouched j (by omega)
  · intro k hk1 hk2
    rcases Nat.lt_succ_iff_lt_or_eq.mp hk2 with hlt | heq
    · obtain ⟨r1, hd1, h1, h2⟩ := hinv.frames k hk1 hlt
      refine ⟨r1, hd1, ?_, ?_⟩
      · intro hr
        rw [(hsame k hk1 hlt).1, (hsame k hk1 hlt).2]
        exact h1 hr
      · intro hr
        rw [(hsame k hk1 hlt).1, (hsame k hk1 hlt).2]
        exact h2 hr
    · subst heq
      have hu := hinv.untouched (k - 1) (le_refl _)
      refine ⟨r, hd, ?_, ?_⟩
      · intro hr
        have := htrue hr
        rw [hmem, this.1, this.2]
        simp only [samplesAt, hu.1, hu.2, and_self]
      · intro hr
        rw [hmem, hfalse hr]
        exact hu
  · have hold : ∀ c ∈ L.calls,
        L1.members.mainCameraMatCorners[c.camera - 1]? = some c.main_chessboard_corners_list ∧
        L1.members.cameraMatCorners[c.camera - 1]? = some c.secondary_chessboard_corners_list ∧
        c.main_camera_matrix = a.cameraMat 0 ∧
        c.secondary_camera_matrix = a.cameraMat c.camera ∧
        c.main_dist_coeff = a.cameraDistCoeff 0 ∧
        c.secondary_dist_coeff = a.cameraDistCoeff c.camera ∧
        c.image_size = ⟨a.width, a.height⟩ ∧
        c.chessboard_pattern = a.chessboard_pattern ∧
        c.chessboard_square_length = a.chessboardSideLength := by
      intro c hc
      have hr := hb.calls_range c hc
      rw [(hsame c.camera hr.1 hr.2).1, (hsame c.camera hr.1 hr.2).2]
      exact hinv.calls_args c hc
    rcases hcase with ⟨-, hc, -⟩ | ⟨-, m, c, k0, ki, d0, di, h1, -, h3, -, h5, h6, h7, h8, hc⟩
    · intro c hcm
      rw [hc, hcalls] at hcm
      exact hold c hcm
    · intro c1 hcm
      rw [hc, hcalls, List.mem_append, List.mem_singleton] at hcm
      rcases hcm with hcm | hcm
      · exact hold c1 hcm
      · subst hcm
        rw [cameraMatrices_getElem? a 0 (by omega)] at h5
        rw [cameraMatrices_getElem? a i hstop] at h6
        rw [cameraDistCoeffs_getElem? a 0 (by omega)] at h7
        rw [cameraDistCoeffs_getElem? a i hstop] at h8
        cases h5
        cases h6
        cases h7
        cases h8
        simp only [hmem, h1, h3, and_self]
  · intro k hk1 hk2
    have hcalls_old : ∀ k, k < i → ((∃ c ∈ L1.calls, c.camera = k) ↔ ∃ c ∈ L.calls, c.camera = k) := by
      intro k hk
      rcases hcase with ⟨-, hc, -⟩ | ⟨-, m, c, k0, ki, d0, di, -, -, -, -, -, -, -, -, hc⟩
      · rw [hc, hcalls]
      · rw [hc, hcalls]
        constructor
        · rintro ⟨c1, hc1, hcam⟩
          rw [List.mem_append, List.mem_singleton] at hc1
          rcases hc1 with hc1 | hc1
          · exact ⟨c1, hc1, hcam⟩
          · subst hc1
            simp only at hcam
            omega
        · rintro ⟨c1, hc1, hcam⟩
          exact ⟨c1, List.mem_append_left _ hc1, hcam⟩
    rcases Nat.lt_succ_iff_lt_or_eq.mp hk2 with hlt | heq
    · rw [hcalls_old k hlt, (hsame k hk1 hlt).2]
      exact hinv.solved_iff k hk1 hlt
    · subst heq
      rw [hmem, ← hcond]
      rcases hcase with ⟨hn, hc, -⟩ | ⟨-, m, c, k0, ki, d0, di, h1, h2, h3, h4, -, -, -, -, hc⟩
      · constructor
        · rintro ⟨c1, hc1, hcam⟩
          rw [hc, hcalls] at hc1
          have := hb.calls_range c1 hc1
          omega
        · intro hcon
          exact absurd hcon hn
      · constructor
        · intro _
          exact ⟨m, c, h1, h2, h3, h4⟩
        · intro _
          exact ⟨_, by rw [hc]; exact List.mem_append_right _ (List.mem_singleton_self _), rfl⟩

theorem loop_invariant (body : Nat → LoopState → Except Abort LoopState)
    (Inv : Nat → LoopState → Prop) (stop : Nat)
    (hstep : ∀ i L L1, 1 ≤ i → i < stop → Inv i L → body i L = .ok L1 → Inv (i + 1) L1) :
    ∀ (n i : Nat) (L L1 : LoopState), 1 ≤ i → i + n ≤ stop → Inv i L →
      TryCalibrate_loop body i n L = .ok L1 → Inv (i + n) L1 := by
  intro n
  induction n with
  | zero =>
    intro i L L1 _ _ hinv h
    simp only [TryCalibrate_loop] at h
    cases h
    exact hinv
  | succ n ih =>
    intro i L L1 hi hle hinv h
    simp only [TryCalibrate_loop] at h
    cases hb : body i L with
    | error e => simp [hb] at h
    | ok L0 =>
      simp only [hb] at h
      have := ih (i + 1) L0 L1 (by omega) (by omega) (hstep i L L0 hi (by omega) hinv hb) h
      rw [show i + (n + 1) = i + 1 + n by omega]
      exact this

theorem loop_error_at (body : Nat → LoopState → Except Abort LoopState)
    (Inv : Nat → LoopState → Prop) (stop : Nat)
    (hstep : ∀ i L L1, 1 ≤ i → i < stop → Inv i L → body i L = .ok L1 → Inv (i + 1) L1) :
    ∀ (n i : Nat) (L : LoopState) (e : Abort), 1 ≤ i → i + n ≤ stop → Inv i L →
      TryCalibrate_loop body i n L = .error e →
      ∃ j Lj, 1 ≤ j ∧ j < stop ∧ Inv j Lj ∧ body j Lj = .error e := by
  intro n
  induction n with
  | zero =>
    intro i L e _ _ _ h
    simp [TryCalibrate_loop] at h
  | succ n ih =>
    intro i L e hi hle hinv h
    simp only [TryCalibrate_loop] at h
    cases hb : body i L with
    | error e1 =>
      simp only [hb] at h
      cases h
      exact ⟨i, L, hi, by omega, hinv, hb⟩
    | ok L0 =>
      simp only [hb] at h
      exact ih (i + 1) L0 e (by omega) (by omega) (hstep i L L0 hi (by omega) hinv hb) h

theorem loop_total (body : Nat → LoopState → Except Abort LoopState)
    (Inv : Nat → LoopState → Prop) (stop : Nat)
    (hstep : ∀ i L L1, 1 ≤ i → i < stop → Inv i L → body i L = .ok L1 → Inv (i + 1) L1)
    (hprog : ∀ i L, 1 ≤ i → i < stop → Inv i L → ∃ L1, body i L = .ok L1) :
    ∀ (n i : Nat) (L : LoopState), 1 ≤ i → i + n ≤ stop → Inv i L →
      ∃ L1, TryCalibrate_loop body i n L = .ok L1 := by
  intro n i L hi hle hinv
  cases h : TryCalibrate_loop body i n L with
  | ok L1 => exact ⟨L1, rfl⟩
  | error e =>
    exfalso
    obtain ⟨j, Lj, hj1, hj2, hinvj, hbj⟩ := loop_error_at body Inv stop hstep n i L e hi hle hinv h
    obtain ⟨L1, hok⟩ := hprog j Lj hj1 hj2 hinvj
    rw [hok] at hbj
    cases hbj

theorem entry_basic (s : Session) : LoopBasic s 1 (LoopState.entry s) := by
  refine ⟨rfl, rfl, rfl, ?_, ?_⟩
  · intro c hc
    simp [LoopState.entry] at hc
  · simp only [LoopState.entry, true_iff]
    intro k hk1 hk2
    omega

theorem entry_lock {Mat : Type} (cv : OpenCV Mat) (w : Nat) (a : Args) (s : Session)
    (hs : LockStep s) : LoopLock cv w a s 1 (LoopState.entry s) := by
  refine ⟨hs, fun _ _ => ⟨rfl, rfl⟩, ?_, ?_, ?_⟩
  · intro k hk1 hk2
    omega
  · intro c hc
    simp [LoopState.entry] at hc
  · intro k hk1 hk2
    omega

theorem accumulate_basic {Mat : Type} (cv : OpenCV Mat) (w : Nat) (a : Args) (s : Session)
    (L : LoopState) (h : TryCalibrate_accumulate cv w a s = .ok L) :
    LoopBasic s (1 + (a.numImages.toNat - 1)) L :=
  loop_invariant (TryCalibrate_iteration cv w a) (LoopBasic s) (1 + (a.numImages.toNat - 1))
    (fun i L0 L1 hi _ hinv hb => iteration_basic cv w a s i L0 L1 hi hinv hb)
    (a.numImages.toNat - 1) 1 (LoopState.entry s) L (le_refl 1) (le_refl _) (entry_basic s) h

theorem accumulate_lock {Mat : Type} (cv : OpenCV Mat) (w : Nat) (a : Args) (s : Session)
    (L : LoopState) (hs : LockStep s) (h : TryCalibrate_accumulate cv w a s = .ok L) :
    LoopLock cv w a s (1 + (a.numImages.toNat - 1)) L :=
  (loop_invariant (TryCalibrate_iteration cv w a)
    (fun i L0 => LoopBasic s i L0 ∧ LoopLock cv w a s i L0) (1 + (a.numImages.toNat - 1))
    (fun i L0 L1 hi hstop hinv hb =>
      ⟨iteration_basic cv w a s i L0 L1 hi hinv.1 hb,
       iteration_lock cv w a s i L0 L1 hi (by omega) hinv.1 hinv.2 hb⟩)
    (a.numImages.toNat - 1) 1 (LoopState.entry s) L (le_refl 1) (le_refl _)
    ⟨entry_basic s, entry_lock cv w a s hs⟩ h).2

theorem accumulate_error_lock {Mat : Type} (cv : OpenCV Mat) (w : Nat) (a : Args)
    (s s1 : Session) (hs : LockStep s)
    (h : TryCalibrate_accumulate cv w a s = .error (Abort.out_of_range s1)) : LockStep s1 := by
  obtain ⟨j, Lj, hj1, hj2, hinv, hb⟩ := loop_error_at (TryCalibrate_iteration cv w a)
    (fun i L0 => LoopBasic s i L0 ∧ LoopLock cv w a s i L0) (1 + (a.numImages.toNat - 1))
    (fun i L0 L1 hi hstop hinv hb =>
      ⟨iteration_basic cv w a s i L0 L1 hi hinv.1 hb,
       iteration_lock cv w a s i L0 L1 hi (by omega) hinv.1 hinv.2 hb⟩)
    (a.numImages.toNat - 1) 1 (LoopState.entry s) _ (le_refl 1) (le_refl _)
    ⟨entry_basic s, entry_lock cv w a s hs⟩ h
  rcases iteration_error cv w a j Lj _ hb with hd | ⟨r, -, ha⟩ | ⟨r, L0, -, ha, hsol⟩
  · have := helper_error cv _ _ _ _ hd
    cases this
  · have := (append_error_lockStep j r.1 r.2.1 r.2.2 Lj _ hinv.2.lock ha).1
    cases this
    exact hinv.2.lock
  · have := solve_error cv w a j L0 _ hsol
    cases this
    exact (append_frame j r.1 r.2.1 r.2.2 Lj L0 hinv.2.lock ha).1

theorem TryCalibrate_ok_iff {Mat : Type} (cv : OpenCV Mat) (w : Nat) (a : Args) (s : Session)
    (r : Returned) :
    TryCalibrate cv w a s = .ok r ↔
      ∃ L, TryCalibrate_accumulate cv w a s = .ok L ∧ r = TryCalibrate_finish cv a L := by
  unfold TryCalibrate
  cases h : TryCalibrate_accumulate cv w a s with
  | error e => simp
  | ok L =>
    simp only [Except.ok.injEq, exists_eq_left']
    exact eq_comm

theorem TryCalibrate_error_iff {Mat : Type} (cv : OpenCV Mat) (w : Nat) (a : Args)
    (s : Session) (e : Abort) :
    TryCalibrate cv w a s = .error e ↔ TryCalibrate_accumulate cv w a s = .error e := by
  unfold TryCalibrate
  cases h : TryCalibrate_accumulate cv w a s with
  | error e1 => simp
  | ok L => simp

theorem lockStep_cleared (s : Session) :
    LockStep { s with mainCameraMatCorners := [], cameraMatCorners := [] } := by
  refine ⟨rfl, ?_⟩
  intro j m c hm
  simp at hm

theorem reachable_lockStep {Mat : Type} (cv : OpenCV Mat) (w : Nat) (s : Session)
    (h : Reachable cv w s) : LockStep s := by
  induction h with
  | constructed => exact lockStep_cleared Session.constructed
  | cleared _ _ => exact lockStep_cleared _
  | returned _ hcall ih =>
    obtain ⟨L, hacc, hr⟩ := (TryCalibrate_ok_iff cv w _ _ _).mp hcall
    have hl := (accumulate_lock cv w _ _ L ih hacc).lock
    rw [hr]
    unfold TryCalibrate_finish
    split
    · exact lockStep_cleared _
    · exact hl
  | thrown _ hcall ih =>
    exact accumulate_error_lock cv w _ _ _ ih ((TryCalibrate_error_iff cv w _ _ _).mp hcall)

theorem finish_calls {Mat : Type} (cv : OpenCV Mat) (a : Args) (L : LoopState) :
    (TryCalibrate_finish cv a L).calls = L.calls := by
  unfold TryCalibrate_finish
  split <;> rfl

theorem finish_completed {Mat : Type} (cv : OpenCV Mat) (a : Args) (L : LoopState) :
    (TryCalibrate_finish cv a L).completed = L.calibratedAllImages := by
  unfold TryCalibrate_finish
  split
  · rename_i h
    rw [h]
  · rename_i h
    simp only [Bool.not_eq_true] at h
    rw [h]

theorem finish_result {Mat : Type} (cv : OpenCV Mat) (a : Args) (L : LoopState) :
    (TryCalibrate_finish cv a L).result = L.foundAllChessboards := by
  unfold TryCalibrate_finish
  split <;> rfl

theorem finish_members {Mat : Type} (cv : OpenCV Mat) (a : Args) (L : LoopState) :
    (TryCalibrate_finish cv a L).members =
      if L.calibratedAllImages = true then Initialize L.members else L.members := by
  unfold TryCalibrate_finish
  split <;> rfl

theorem finish_buffer_of_not_completed {Mat : Type} (cv : OpenCV Mat) (a : Args) (L : LoopState)
    (h : L.calibratedAllImages = false) :
    (TryCalibrate_finish cv a L).cameraTransforms = a.cameraTransforms := by
  unfold TryCalibrate_finish
  rw [h]
  rfl

theorem loop_bound (a : Args) (i : Nat) (h1 : 1 ≤ i) :
    i < 1 + (a.numImages.toNat - 1) ↔ (i : Int) < a.numImages := by
  omega

/-- C3.  Whenever `TryCalibrate` returns with `*completed = true`, the members after the call
are those produced by `Initialize`: `mainCameraMatCorners` and `cameraMatCorners` are empty (no
accumulator is left at any index), whatever the stores held before the call. -/
theorem completed_resets_session {Mat : Type} (cv : OpenCV Mat) (w : Nat) (a : Args)
    (s : Session) (r : Returned) (hret : TryCalibrate cv w a s = .ok r)
    (hc : r.completed = true) :
    r.members = Initialize s ∧ r.members.mainCameraMatCorners = [] ∧
      r.members.cameraMatCorners = [] ∧
      ∀ j, samplesAt r.members.mainCameraMatCorners j = [] ∧
        samplesAt r.members.cameraMatCorners j = [] := by
  obtain ⟨L, hacc, hr⟩ := (TryCalibrate_ok_iff cv w a s r).mp hret
  have hinv := accumulate_basic cv w a s L hacc
  have hcal : L.calibratedAllImages = true := by
    rw [← finish_completed cv a L, ← hr]
    exact hc
  have hm : r.members = Initialize s := by
    rw [hr, finish_members, if_pos hcal]
    unfold Initialize
    rw [hinv.pnp]
  rw [hm]
  exact ⟨rfl, rfl, rfl, fun j => by simp [samplesAt, Initialize]⟩

theorem samplesAt_congr (st1 st2 : CornerStore) (j : Nat) (h : st1[j]? = st2[j]?) :
    samplesAt st1 j = samplesAt st2 j := by
  unfold samplesAt
  rw [h]

theorem samplesAt_of_getElem? (st : CornerStore) (j : Nat) (l : SampleList)
    (h : st[j]? = some l) : samplesAt st j = l := by
  unfold samplesAt
  rw [h]
  rfl

/-- C4.  For every reachable state of the members and every call of `TryCalibrate` that returns
with `*completed = false`: the buffer `cameraTransforms` is unchanged; at every index the samples
held before the call are an initial segment of those held after it; and for every secondary
camera `1 ≤ i < numImages` the helper returned a triple `d` whose flag is the conjunction of the
two detections and whose reference corners are those detected, such that, if the flag is true,
each of the two accumulators of index `i - 1` is the one before the call followed by exactly one
sample (the reference corners, resp. the secondary corners as left by the helper), and if the
flag is false both accumulators are what they were before the call. -/
theorem not_completed_keeps_samples {Mat : Type} (cv : OpenCV Mat) (w : Nat) (a : Args)
    (s : Session) (r : Returned) (hs : Reachable cv w s)
    (hret : TryCalibrate cv w a s = .ok r) (hc : r.completed = false) :
    r.cameraTransforms = a.cameraTransforms ∧
    (∀ j, samplesAt s.mainCameraMatCorners j <+: samplesAt r.members.mainCameraMatCorners j ∧
      samplesAt s.cameraMatCorners j <+: samplesAt r.members.cameraMatCorners j) ∧
    ∀ i : Nat, 1 ≤ i → (i : Int) < a.numImages →
      ∃ d, a.detect cv i = .ok d ∧
        d.1 = ((cv.findChessboardCorners (a.mainCameraMat cv) a.chessboard_pattern).1 &&
          (cv.findChessboardCorners (a.tempMat cv i) a.chessboard_pattern).1) ∧
        d.2.1 = (cv.findChessboardCorners (a.mainCameraMat cv) a.chessboard_pattern).2 ∧
        (d.1 = true →
          samplesAt r.members.mainCameraMatCorners (i - 1) =
            samplesAt s.mainCameraMatCorners (i - 1) ++ [d.2.1] ∧
          samplesAt r.members.cameraMatCorners (i - 1) =
            samplesAt s.cameraMatCorners (i - 1) ++ [d.2.2]) ∧
        (d.1 = false →
          r.members.mainCameraMatCorners[i - 1]? = s.mainCameraMatCorners[i - 1]? ∧
          r.members.cameraMatCorners[i - 1]? = s.cameraMatCorners[i - 1]?) := by
  obtain ⟨L, hacc, hr⟩ := (TryCalibrate_ok_iff cv w a s r).mp hret
  have hinv := accumulate_lock cv w a s L (reachable_lockStep cv w s hs) hacc
  have hcal : L.calibratedAllImages = false := by
    rw [← finish_completed cv a L, ← hr]
    exact hc
  have hm : r.members = L.members := by
    rw [hr, finish_members, hcal]
    rfl
  rw [hm]
  refine ⟨by rw [hr]; exact finish_buffer_of_not_completed cv a L hcal, ?_, ?_⟩
  · intro j
    by_cases hj : j + 1 < 1 + (a.numImages.toNat - 1)
    · obtain ⟨d, -, h1, h2⟩ := hinv.frames (j + 1) (by omega) hj
      simp only [Nat.add_sub_cancel] at h1 h2
      cases hd : d.1 with
      | true =>
        have := h1 hd
        rw [samplesAt_of_getElem? _ _ _ this.1, samplesAt_of_getElem? _ _ _ this.2]
        exact ⟨List.prefix_append _ _, List.prefix_append _ _⟩
      | false =>
        have := h2 hd
        rw [samplesAt_congr _ _ _ this.1, samplesAt_congr _ _ _ this.2]
        exact ⟨List.prefix_refl _, List.prefix_refl _⟩
    · have := hinv.untouched j (by omega)
      rw [samplesAt_congr _ _ _ this.1, samplesAt_congr _ _ _ this.2]
      exact ⟨List.prefix_refl _, List.prefix_refl _⟩
  · intro i hi1 hi2
    obtain ⟨d, hd, h1, h2⟩ := hinv.frames i hi1 ((loop_bound a i hi1).mpr hi2)
    have hflag := helper_ok_flag cv _ _ _ d hd
    refine ⟨d, hd, hflag.1, hflag.2, ?_, h2⟩
    intro ht
    have := h1 ht
    exact ⟨samplesAt_of_getElem? _ _ _ this.1, samplesAt_of_getElem? _ _ _ this.2⟩

/-- The value returned by `TryCalibrate` is `false` on every normal return. -/
theorem result_false {Mat : Type} (cv : OpenCV Mat) (w : Nat) (a : Args) (s : Session)
    (r : Returned) (hret : TryCalibrate cv w a s = .ok r) : r.result = false := by
  obtain ⟨L, hacc, hr⟩ := (TryCalibrate_ok_iff cv w a s r).mp hret
  rw [hr, finish_result]
  exact (accumulate_basic cv w a s L hacc).found

/-- C5 (failing run).  From the members left by the constructor, a batch of three frames in
which the reference and camera 2 show the chessboard and camera 1 does not: camera 1 is skipped,
and the append for camera 2 reaches `mainCameraMatCorners.at(1)` on an empty store, so
`TryCalibrate` throws `std::out_of_range` and the pair of camera 2 is not appended. -/
theorem detection_gap_throws_out_of_range :
    (scriptedCV.findChessboardCorners ((batch 3 0 [1, 0, 1]).mainCameraMat scriptedCV)
        (batch 3 0 [1, 0, 1]).chessboard_pattern).1 = true ∧
    (scriptedCV.findChessboardCorners ((batch 3 0 [1, 0, 1]).tempMat scriptedCV 1)
        (batch 3 0 [1, 0, 1]).chessboard_pattern).1 = false ∧
    (scriptedCV.findChessboardCorners ((batch 3 0 [1, 0, 1]).tempMat scriptedCV 2)
        (batch 3 0 [1, 0, 1]).chessboard_pattern).1 = true ∧
    Reachable scriptedCV 64 Session.constructed ∧
    TryCalibrate scriptedCV 64 (batch 3 0 [1, 0, 1]) Session.constructed =
      .error (Abort.out_of_range Session.constructed) :=
  ⟨by decide!, by decide!, by decide!, Reachable.constructed,
    (TryCalibrate_error_iff scriptedCV 64 _ _ _).mpr (by decide!)⟩

theorem ok_of_toBool {ε α : Type} (x : Except ε α) (h : x.toBool = true) : ∃ v, x = .ok v := by
  cases x with
  | error e => simp [Except.toBool] at h
  | ok v => exact ⟨v, rfl⟩

/-- C6 (failing run).  From the members left by the constructor, a batch of two frames that both
show the chessboard: `TryCalibrate` returns normally and the returned value is `false`. -/
theorem allFound_false_when_all_detected :
    (scriptedCV.findChessboardCorners ((batch 2 0 [1, 1]).mainCameraMat scriptedCV)
        (batch 2 0 [1, 1]).chessboard_pattern).1 = true ∧
    (scriptedCV.findChessboardCorners ((batch 2 0 [1, 1]).tempMat scriptedCV 1)
        (batch 2 0 [1, 1]).chessboard_pattern).1 = true ∧
    (TryCalibrate scriptedCV 64 (batch 2 0 [1, 1]) Session.constructed).map Returned.result =
      .ok false :=
  ⟨by decide!, by decide!, by decide!⟩

/-- C7 (counterexample).  The members `s1` left by a first batch with threshold 1, in which both
frames show the chessboard, hold one sample for camera 1.  A second batch with threshold 0 in
which the reference frame shows no chessboard returns with `*completed = true` and leaves both
stores empty: the stores after the call differ from the stores before it. -/
theorem reference_failure_clears_counterexample :
    Reachable scriptedCV 64 ⟨[[[⟨0, 0⟩, ⟨1, 0⟩]]], [[[⟨0, 0⟩, ⟨1, 0⟩]]], []⟩ ∧
    (scriptedCV.findChessboardCorners ((batch 2 0 [0, 1]).mainCameraMat scriptedCV)
      (batch 2 0 [0, 1]).chessboard_pattern).1 = false ∧
    ∃ r, TryCalibrate scriptedCV 64 (batch 2 0 [0, 1])
        ⟨[[[⟨0, 0⟩, ⟨1, 0⟩]]], [[[⟨0, 0⟩, ⟨1, 0⟩]]], []⟩ = .ok r ∧
      r.completed = true ∧ r.members = Session.constructed ∧
      r.members ≠ ⟨[[[⟨0, 0⟩, ⟨1, 0⟩]]], [[[⟨0, 0⟩, ⟨1, 0⟩]]], []⟩ := by
  obtain ⟨L1, h1⟩ := ok_of_toBool
    (TryCalibrate_accumulate scriptedCV 64 (batch 2 1 [1, 1]) Session.constructed) (by decide!)
  have hm1 : L1.members = ⟨[[[⟨0, 0⟩, ⟨1, 0⟩]]], [[[⟨0, 0⟩, ⟨1, 0⟩]]], []⟩ := by
    have : (TryCalibrate_accumulate scriptedCV 64 (batch 2 1 [1, 1]) Session.constructed).map
        LoopState.members = .ok ⟨[[[⟨0, 0⟩, ⟨1, 0⟩]]], [[[⟨0, 0⟩, ⟨1, 0⟩]]], []⟩ := by decide!
    rw [h1] at this
    exact Except.ok.inj this
  have hc1 : L1.calibratedAllImages = false := by
    have : (TryCalibrate_accumulate scriptedCV 64 (batch 2 1 [1, 1]) Session.constructed).map
        LoopState.calibratedAllImages = .ok false := by decide!
    rw [h1] at this
    exact Except.ok.inj this
  have hr1 : TryCalibrate scriptedCV 64 (batch 2 1 [1, 1]) Session.constructed =
      .ok (TryCalibrate_finish scriptedCV (batch 2 1 [1, 1]) L1) :=
    (TryCalibrate_ok_iff scriptedCV 64 _ _ _).mpr ⟨L1, h1, rfl⟩
  have hreach := Reachable.returned Reachable.constructed hr1
  rw [finish_members, hc1] at hreach
  simp only [Bool.false_eq_true, if_false] at hreach
  rw [hm1] at hreach
  obtain ⟨L2, h2⟩ := ok_of_toBool
    (TryCalibrate_accumulate scriptedCV 64 (batch 2 0 [0, 1])
      ⟨[[[⟨0, 0⟩, ⟨1, 0⟩]]], [[[⟨0, 0⟩, ⟨1, 0⟩]]], []⟩) (by decide!)
  have hc2 : L2.calibratedAllImages = true := by
    have : (TryCalibrate_accumulate scriptedCV 64 (batch 2 0 [0, 1])
        ⟨[[[⟨0, 0⟩, ⟨1, 0⟩]]], [[[⟨0, 0⟩, ⟨1, 0⟩]]], []⟩).map
        LoopState.calibratedAllImages = .ok true := by decide!
    rw [h2] at this
    exact Except.ok.inj this
  have hp2 : L2.members.cameraMatCornersPnP = [] :=
    (accumulate_basic scriptedCV 64 _ _ L2 h2).pnp
  have hm2 : (TryCalibrate_finish scriptedCV (batch 2 0 [0, 1]) L2).members =
      Session.constructed := by
    rw [finish_members, if_pos hc2]
    unfold Initialize Session.constructed
    rw [hp2]
  refine ⟨hreach, by decide!, _, (TryCalibrate_ok_iff scriptedCV 64 _ _ _).mpr ⟨L2, h2, rfl⟩,
    by rw [finish_completed, hc2], hm2, ?_⟩
  rw [hm2]
  decide

/-- C7 (amended).  For every reachable state of the members and every batch in which the
reference frame shows no chessboard, `TryCalibrate` returns normally, the returned value is
`false`, no pair is appended by the loop (the state left by the loop has the members of before
the call), and the members after the call are those of before the call when `*completed = false`
and those produced by `Initialize` when `*completed = true`; `*completed` is true exactly when
every secondary camera `1 ≤ i < numImages` of the batch has, before the call, an accumulator
`cameraMatCorners[i - 1]` holding more samples than `requiredImages` converted to `size_t`. -/
theorem reference_failure_appends_nothing {Mat : Type} (cv : OpenCV Mat) (w : Nat) (a : Args)
    (s : Session) (hs : Reachable cv w s)
    (href : (cv.findChessboardCorners (a.mainCameraMat cv) a.chessboard_pattern).1 = false) :
    ∃ r L, TryCalibrate cv w a s = .ok r ∧ TryCalibrate_accumulate cv w a s = .ok L ∧
      L.members = s ∧ r.result = false ∧
      (r.completed = false → r.members = s) ∧
      (r.completed = true → r.members = Initialize s) ∧
      (r.completed = true ↔
        ∀ i : Nat, 1 ≤ i → (i : Int) < a.numImages →
          ∃ c, s.cameraMatCorners[i - 1]? = some c ∧
            toSizeT w a.requiredImages < c.length) := by
  have hlock := reachable_lockStep cv w s hs
  have hdet : ∀ i, a.detect cv i = .ok (false,
      (cv.findChessboardCorners (a.mainCameraMat cv) a.chessboard_pattern).2,
      (cv.findChessboardCorners (a.tempMat cv i) a.chessboard_pattern).2) := by
    intro i
    exact helper_of_not_found cv _ _ _ (by rw [href]; rfl)
  have hstep : ∀ i L L1, 1 ≤ i → i < 1 + (a.numImages.toNat - 1) → L.members = s →
      TryCalibrate_iteration cv w a i L = .ok L1 → L1.members = s := by
    intro i L L1 _ _ hinv hb
    obtain ⟨d, L0, hd, ha, hsol⟩ := iteration_ok cv w a i L L1 hb
    rw [hdet i] at hd
    cases hd
    obtain ⟨-, -, -, -, -, hfalse, -⟩ := append_spec i _ _ _ L L0 ha
    rw [(solve_spec cv w a i L0 L1 hsol).1, hfalse rfl, hinv]
  have hprog : ∀ i L, 1 ≤ i → i < 1 + (a.numImages.toNat - 1) → L.members = s →
      ∃ L1, TryCalibrate_iteration cv w a i L = .ok L1 := by
    intro i L _ hi hinv
    unfold TryCalibrate_iteration
    rw [hdet i]
    simp only [TryCalibrate_append, Bool.false_eq_true, if_false]
    exact solve_total cv w a i _ (by simp only [hinv]; exact hlock) (by omega)
  obtain ⟨L, hacc⟩ := loop_total (TryCalibrate_iteration cv w a) (fun _ L => L.members = s)
    (1 + (a.numImages.toNat - 1)) hstep hprog (a.numImages.toNat - 1) 1 (LoopState.entry s)
    (le_refl 1) (le_refl _) rfl
  have hmem : L.members = s :=
    loop_invariant (TryCalibrate_iteration cv w a) (fun _ L => L.members = s)
      (1 + (a.numImages.toNat - 1)) hstep (a.numImages.toNat - 1) 1 (LoopState.entry s) L
      (le_refl 1) (le_refl _) rfl hacc
  have hret : TryCalibrate cv w a s = .ok (TryCalibrate_finish cv a L) :=
    (TryCalibrate_ok_iff cv w a s _).mpr ⟨L, hacc, rfl⟩
  refine ⟨_, L, hret, hacc, hmem, result_false cv w a s _ hret, ?_, ?_, ?_⟩
  · intro hc
    rw [finish_completed] at hc
    rw [finish_members, hc, hmem]
    rfl
  · intro hc
    rw [finish_completed] at hc
    rw [finish_members, if_pos hc, hmem]
  · have hbasic := accumulate_basic cv w a s L hacc
    have hlk := accumulate_lock cv w a s L hlock hacc
    rw [finish_completed, hbasic.completed_iff]
    constructor
    · intro h i hi1 hi2
      have hi := (loop_bound a i hi1).mpr hi2
      have := (hlk.solved_iff i hi1 hi).mp (h i hi1 hi)
      rw [hmem] at this
      exact this
    · intro h i hi1 hi
      have := h i hi1 ((loop_bound a i hi1).mp hi)
      rw [← hmem] at this
      exact (hlk.solved_iff i hi1 hi).mpr this

/-- Instance of C3: a first batch of two frames that both show the chessboard, with threshold 0,
completes and leaves both stores empty. -/
theorem completed_resets_session_witness :
    ∃ r, TryCalibrate scriptedCV 64 (batch 2 0 [1, 1]) Session.constructed = .ok r ∧
      r.completed = true ∧ r.members = Initialize Session.constructed ∧
      r.members.mainCameraMatCorners = [] ∧ r.members.cameraMatCorners = [] := by
  obtain ⟨L, h⟩ := ok_of_toBool
    (TryCalibrate_accumulate scriptedCV 64 (batch 2 0 [1, 1]) Session.constructed) (by decide!)
  have hc : L.calibratedAllImages = true := by
    have : (TryCalibrate_accumulate scriptedCV 64 (batch 2 0 [1, 1]) Session.constructed).map
        LoopState.calibratedAllImages = .ok true := by decide!
    rw [h] at this
    exact Except.ok.inj this
  have hret := (TryCalibrate_ok_iff scriptedCV 64 (batch 2 0 [1, 1]) Session.constructed _).mpr
    ⟨L, h, rfl⟩
  have hcompleted : (TryCalibrate_finish scriptedCV (batch 2 0 [1, 1]) L).completed = true := by
    rw [finish_completed, hc]
  have hmain := completed_resets_session scriptedCV 64 (batch 2 0 [1, 1]) Session.constructed _
    hret hcompleted
  exact ⟨_, hret, hcompleted, hmain.1, hmain.2.1, hmain.2.2.1⟩

/-- Instance of C4: a first batch of two frames that both show the chessboard, with threshold 1,
does not complete; the buffer is unchanged and the pair of camera 1 is appended. -/
theorem not_completed_keeps_samples_witness :
    ∃ r, TryCalibrate scriptedCV 64 (batch 2 1 [1, 2]) Session.constructed = .ok r ∧
      r.completed = false ∧
      r.cameraTransforms = (batch 2 1 [1, 2]).cameraTransforms ∧
      ∃ d, (batch 2 1 [1, 2]).detect scriptedCV 1 = .ok d ∧
        (d.1 = true →
          samplesAt r.members.mainCameraMatCorners 0 =
            samplesAt Session.constructed.mainCameraMatCorners 0 ++ [d.2.1] ∧
          samplesAt r.members.cameraMatCorners 0 =
            samplesAt Session.constructed.cameraMatCorners 0 ++ [d.2.2]) := by
  obtain ⟨L, h⟩ := ok_of_toBool
    (TryCalibrate_accumulate scriptedCV 64 (batch 2 1 [1, 2]) Session.constructed) (by decide!)
  have hc : L.calibratedAllImages = false := by
    have : (TryCalibrate_accumulate scriptedCV 64 (batch 2 1 [1, 2]) Session.constructed).map
        LoopState.calibratedAllImages = .ok false := by decide!
    rw [h] at this
    exact Except.ok.inj this
  have hret := (TryCalibrate_ok_iff scriptedCV 64 (batch 2 1 [1, 2]) Session.constructed _).mpr
    ⟨L, h, rfl⟩
  have hcompleted : (TryCalibrate_finish scriptedCV (batch 2 1 [1, 2]) L).completed = false := by
    rw [finish_completed, hc]
  have hmain := not_completed_keeps_samples scriptedCV 64 (batch 2 1 [1, 2])
    Session.constructed _ Reachable.constructed hret hcompleted
  obtain ⟨d, hd, -, -, htrue, -⟩ := hmain.2.2 1 (le_refl 1) (by decide)
  exact ⟨_, hret, hcompleted, hmain.1, d, hd, htrue⟩

/-- The members that hold one sample for camera 1 are reachable: they are left by a first batch
of two frames that both show the chessboard, with threshold 1. -/
theorem reachable_one_sample :
    Reachable scriptedCV 64 ⟨[[[⟨0, 0⟩, ⟨1, 0⟩]]], [[[⟨0, 0⟩, ⟨1, 0⟩]]], []⟩ := by
  obtain ⟨L1, h1⟩ := ok_of_toBool
    (TryCalibrate_accumulate scriptedCV 64 (batch 2 1 [1, 1]) Session.constructed) (by decide!)
  have hm1 : L1.members = ⟨[[[⟨0, 0⟩, ⟨1, 0⟩]]], [[[⟨0, 0⟩, ⟨1, 0⟩]]], []⟩ := by
    have : (TryCalibrate_accumulate scriptedCV 64 (batch 2 1 [1, 1]) Session.constructed).map
        LoopState.members = .ok ⟨[[[⟨0, 0⟩, ⟨1, 0⟩]]], [[[⟨0, 0⟩, ⟨1, 0⟩]]], []⟩ := by decide!
    rw [h1] at this
    exact Except.ok.inj this
  have hc1 : L1.calibratedAllImages = false := by
    have : (TryCalibrate_accumulate scriptedCV 64 (batch 2 1 [1, 1]) Session.constructed).map
        LoopState.calibratedAllImages = .ok false := by decide!
    rw [h1] at this
    exact Except.ok.inj this
  have hreach := Reachable.returned Reachable.constructed
    ((TryCalibrate_ok_iff scriptedCV 64 (batch 2 1 [1, 1]) Session.constructed _).mpr
      ⟨L1, h1, rfl⟩)
  rw [finish_members, hc1] at hreach
  simp only [Bool.false_eq_true, if_false] at hreach
  rw [hm1] at hreach
  exact hreach

/-- Instances of the amended C7 on members that hold one sample for camera 1, with a batch whose
reference frame shows no chessboard: with threshold 1 the call does not complete and the members
are unchanged; with threshold 0 it completes and both stores are cleared; with threshold -1,
compared as `2 ^ 64 - 1`, it does not complete and the members are unchanged. -/
theorem reference_failure_appends_nothing_witness :
    (∃ r, TryCalibrate scriptedCV 64 (batch 2 1 [0, 1])
        ⟨[[[⟨0, 0⟩, ⟨1, 0⟩]]], [[[⟨0, 0⟩, ⟨1, 0⟩]]], []⟩ = .ok r ∧
      r.result = false ∧ r.completed = false ∧
      r.members = ⟨[[[⟨0, 0⟩, ⟨1, 0⟩]]], [[[⟨0, 0⟩, ⟨1, 0⟩]]], []⟩) ∧
    (∃ r, TryCalibrate scriptedCV 64 (batch 2 0 [0, 1])
        ⟨[[[⟨0, 0⟩, ⟨1, 0⟩]]], [[[⟨0, 0⟩, ⟨1, 0⟩]]], []⟩ = .ok r ∧
      r.result = false ∧ r.completed = true ∧ r.members = Session.constructed) ∧
    (∃ r, TryCalibrate scriptedCV 64 (batch 2 (-1) [0, 1])
        ⟨[[[⟨0, 0⟩, ⟨1, 0⟩]]], [[[⟨0, 0⟩, ⟨1, 0⟩]]], []⟩ = .ok r ∧
      r.result = false ∧ r.completed = false ∧
      r.members = ⟨[[[⟨0, 0⟩, ⟨1, 0⟩]]], [[[⟨0, 0⟩, ⟨1, 0⟩]]], []⟩) := by
  refine ⟨?_, ?_, ?_⟩
  · obtain ⟨r, L, hret, -, -, hres, hfalse, -, hiff⟩ :=
      reference_failure_appends_nothing scriptedCV 64 (batch 2 1 [0, 1]) _
        reachable_one_sample (by decide!)
    have hc : r.completed = false := by
      cases h : r.completed with
      | false => rfl
      | true =>
        exfalso
        obtain ⟨c, hc1, hc2⟩ := hiff.mp h 1 (le_refl 1) (by decide)
        simp only [Nat.sub_self, List.getElem?_cons_zero, Option.some.injEq] at hc1
        subst hc1
        revert hc2
        decide!
    exact ⟨r, hret, hres, hc, hfalse hc⟩
  · obtain ⟨r, L, hret, -, -, hres, -, htrue, hiff⟩ :=
      reference_failure_appends_nothing scriptedCV 64 (batch 2 0 [0, 1]) _
        reachable_one_sample (by decide!)
    have hc : r.completed = true := by
      rw [hiff]
      intro i hi1 hi2
      have hi : i = 1 := by
        have : (i : Int) < 2 := hi2
        omega
      subst hi
      exact ⟨_, rfl, by decide!⟩
    exact ⟨r, hret, hres, hc, htrue hc⟩
  · obtain ⟨r, L, hret, -, -, hres, hfalse, -, hiff⟩ :=
      reference_failure_appends_nothing scriptedCV 64 (batch 2 (-1) [0, 1]) _
        reachable_one_sample (by decide!)
    have hc : r.completed = false := by
      cases h : r.completed with
      | false => rfl
      | true =>
        exfalso
        obtain ⟨c, hc1, hc2⟩ := hiff.mp h 1 (le_refl 1) (by decide)
        simp only [Nat.sub_self, List.getElem?_cons_zero, Option.some.injEq] at hc1
        subst hc1
        revert hc2
        decide!
    exact ⟨r, hret, hres, hc, hfalse hc⟩

theorem F32.neg_neg (x : F32) : x.neg.neg = x := by
  cases x with
  | finite q => simp [F32.neg]
  | infinite negative => simp [F32.neg]
  | nan => rfl

theorem binary32_roundNonneg_zero : binary32_roundNonneg 0 = F32.finite 0 := by
  decide!

theorem binary32_neg (q : ℚ) : binary32 (-q) = (binary32 q).neg := by
  rcases lt_trichotomy q 0 with hq | hq | hq
  · have h1 : ¬ (-q < 0) := by linarith
    simp only [binary32, h1, hq, if_true, if_false, F32.neg_neg]
  · subst hq
    simp [binary32, binary32_roundNonneg_zero, F32.neg]
  · have h1 : -q < 0 := by linarith
    have h2 : ¬ (q < 0) := by linarith
    simp only [binary32, h1, h2, if_true, if_false, neg_neg]

theorem F32.mul_neg (x y : F32) : F32.mul x y.neg = (F32.mul x y).neg := by
  cases x with
  | finite a =>
    cases y with
    | finite b =>
      show binary32 (a * -b) = (binary32 (a * b)).neg
      rw [show a * -b = -(a * b) by ring, binary32_neg]
    | infinite n =>
      simp only [F32.mul, F32.neg]
      by_cases ha : a = 0
      · simp [ha, F32.neg]
      · by_cases hlt : a < 0 <;> simp [ha, hlt, F32.neg]
    | nan => rfl
  | infinite n =>
    cases y with
    | finite b =>
      simp only [F32.mul, F32.neg]
      by_cases hb : b = 0
      · simp [hb, F32.neg]
      · rcases lt_or_gt_of_ne hb with hlt | hgt
        · have h1 : ¬ (0 < b) := by linarith
          simp [hb, hlt, h1, F32.neg]
        · have h1 : ¬ (b < 0) := by linarith
          simp [hb, hgt, h1, F32.neg]
    | infinite k => cases n <;> cases k <;> rfl
    | nan => rfl
  | nan => cases y <;> rfl

theorem F32.add_neg_neg (x y : F32) : F32.add x.neg y.neg = (F32.add x y).neg := by
  cases x with
  | finite a =>
    cases y with
    | finite b =>
      show binary32 (-a + -b) = (binary32 (a + b)).neg
      rw [show -a + -b = -(a + b) by ring, binary32_neg]
    | infinite n => rfl
    | nan => rfl
  | infinite n =>
    cases y with
    | finite b => rfl
    | infinite k => cases n <;> cases k <;> rfl
    | nan => rfl
  | nan => cases y <;> rfl

theorem firstToLast_reverse (v : List Point2f) (h : v ≠ []) (h2 : v.reverse ≠ []) :
    firstToLast v.reverse h2 = ⟨(firstToLast v h).v0.neg, (firstToLast v h).v1.neg⟩ := by
  simp only [firstToLast, Point2f.sub, List.getLast_reverse, List.head_reverse]
  rw [← binary32_neg, ← binary32_neg]
  simp

theorem dot_firstToLast_reverse (u : Vec2f) (v : List Point2f) (h : v ≠ [])
    (h2 : v.reverse ≠ []) :
    Vec2f.dot u (firstToLast v.reverse h2) = (Vec2f.dot u (firstToLast v h)).neg := by
  rw [firstToLast_reverse v h h2]
  simp only [Vec2f.dot]
  rw [F32.mul_neg, F32.mul_neg, ← F32.add_neg_neg, ← F32.add_neg_neg]
  simp [F32.neg]

theorem F32.gt_zero_neg (x : F32) (h : x.le_zero = true) (h0 : x ≠ F32.finite 0) :
    x.neg.gt_zero = true := by
  cases x with
  | finite q =>
    simp only [F32.le_zero, decide_eq_true_eq] at h
    simp only [F32.neg, F32.gt_zero, decide_eq_true_eq]
    have hne : q ≠ 0 := fun hq => h0 (by rw [hq])
    have := lt_of_le_of_ne h hne
    linarith
  | infinite negative =>
    simp only [F32.le_zero] at h
    subst h
    rfl
  | nan => exact Bool.noConfusion h

/-- C14 (counterexample).  The reference `(0,0), (1,0)` and the secondary `(0,0), (0,1)` have
equal length 2 and perpendicular displacements: the helper resolves the secondary to
`(0,1), (0,0)`, and resolving that sequence again against the same reference gives back
`(0,0), (0,1)`, not the resolved sequence. -/
theorem resolve_twice_counterexample :
    find_chessboard_corners_helper oracleCV (true, [⟨0, 0⟩, ⟨1, 0⟩]) (true, [⟨0, 0⟩, ⟨0, 1⟩])
        ⟨2, 1⟩ = .ok (true, [⟨0, 0⟩, ⟨1, 0⟩], [⟨0, 1⟩, ⟨0, 0⟩]) ∧
    find_chessboard_corners_helper oracleCV (true, [⟨0, 0⟩, ⟨1, 0⟩]) (true, [⟨0, 1⟩, ⟨0, 0⟩])
        ⟨2, 1⟩ = .ok (true, [⟨0, 0⟩, ⟨1, 0⟩], [⟨0, 0⟩, ⟨0, 1⟩]) ∧
    ([⟨0, 0⟩, ⟨0, 1⟩] : List Point2f) ≠ [⟨0, 1⟩, ⟨0, 0⟩] :=
  ⟨by decide!, by decide!, by decide!⟩

/-- C14 (amended).  For detected corner sequences of equal, positive length whose first-to-last
displacements have a dot product that the code computes, in `float`, as different from zero, or
whose secondary sequence reads the same in both directions: if the helper resolves the
secondary sequence to `resolved`, then running the helper again on the same reference and on an
image in which the detector reads `resolved` returns `resolved` unchanged. -/
theorem resolve_idempotent_of_dot_ne_zero {Mat : Type} (cv : OpenCV Mat) (mi si si2 : Mat)
    (p : Size) (reference secondary resolved : List Point2f)
    (href : cv.findChessboardCorners mi p = (true, reference))
    (hsec : cv.findChessboardCorners si p = (true, secondary))
    (hlen : reference.length = secondary.length) (hpos : 0 < reference.length)
    (hdot : Vec2f.dot (firstToLast reference (List.ne_nil_of_length_pos hpos))
        (firstToLast secondary (List.ne_nil_of_length_pos (hlen ▸ hpos))) ≠ F32.finite 0 ∨
      secondary.reverse = secondary)
    (hfirst : find_chessboard_corners_helper cv mi si p = .ok (true, reference, resolved))
    (hsec2 : cv.findChessboardCorners si2 p = (true, resolved)) :
    find_chessboard_corners_helper cv mi si2 p = .ok (true, reference, resolved) := by
  have hr : reference ≠ [] := List.ne_nil_of_length_pos hpos
  have hs : secondary ≠ [] := List.ne_nil_of_length_pos (hlen ▸ hpos)
  rw [helper_of_found cv mi si p reference secondary href hsec hr hs] at hfirst
  by_cases hle : (Vec2f.dot (firstToLast reference hr) (firstToLast secondary hs)).le_zero = true
  · rw [if_pos hle] at hfirst
    have hres : resolved = secondary.reverse := by
      have := Except.ok.inj hfirst
      simp only [Prod.mk.injEq, true_and] at this
      exact this.symm
    subst hres
    have hs2 : secondary.reverse ≠ [] := by simpa using hs
    rw [helper_of_found cv mi si2 p reference secondary.reverse href hsec2 hr hs2,
      dot_firstToLast_reverse _ secondary hs hs2]
    by_cases hzero : Vec2f.dot (firstToLast reference hr) (firstToLast secondary hs) =
        F32.finite 0
    · have hpal : secondary.reverse = secondary := by
        rcases hdot with hne | hpal
        · exact absurd hzero hne
        · exact hpal
      rw [hzero, if_pos (by decide!), List.reverse_reverse, hpal]
    · rw [if_neg (by
        rw [F32.le_zero_of_gt_zero _ (F32.gt_zero_neg _ hle hzero)]
        exact Bool.false_ne_true)]
  · rw [if_neg hle] at hfirst
    have hres : resolved = secondary := by
      have := Except.ok.inj hfirst
      simp only [Prod.mk.injEq, true_and] at this
      exact this.symm
    subst hres
    rw [helper_of_found cv mi si2 p reference resolved href hsec2 hr hs, if_neg hle]

/-- Instance of the amended C14: a secondary sequence read from right to left is reversed by
the first resolution and kept by the second. -/
theorem resolve_idempotent_of_dot_ne_zero_witness :
    find_chessboard_corners_helper oracleCV (true, [⟨0, 0⟩, ⟨1, 0⟩]) (true, [⟨0, 0⟩, ⟨1, 0⟩])
      ⟨2, 1⟩ = .ok (true, [⟨0, 0⟩, ⟨1, 0⟩], [⟨0, 0⟩, ⟨1, 0⟩]) :=
  resolve_idempotent_of_dot_ne_zero oracleCV (true, [⟨0, 0⟩, ⟨1, 0⟩])
    (true, [⟨1, 0⟩, ⟨0, 0⟩]) (true, [⟨0, 0⟩, ⟨1, 0⟩]) ⟨2, 1⟩
    [⟨0, 0⟩, ⟨1, 0⟩] [⟨1, 0⟩, ⟨0, 0⟩] [⟨0, 0⟩, ⟨1, 0⟩] rfl rfl (by decide) (by decide)
    (Or.inl (by decide!)) (by decide!) rfl

theorem lockStep_mem_main (s : Session) (hs : LockStep s) (m : SampleList)
    (hm : m ∈ s.mainCameraMatCorners) : m ≠ [] := by
  obtain ⟨j, hj⟩ := List.getElem?_of_mem hm
  obtain ⟨c, -, hlen, hpos⟩ := lockStep_getElem?_main s hs j m hj
  intro hnil
  rw [hnil] at hlen
  simp at hlen
  omega

theorem lockStep_mem_secondary (s : Session) (hs : LockStep s) (c : SampleList)
    (hc : c ∈ s.cameraMatCorners) : c ≠ [] := by
  obtain ⟨j, hj⟩ := List.getElem?_of_mem hc
  obtain ⟨m, -, -, hpos⟩ := lockStep_getElem? s hs j c hj
  intro hnil
  rw [hnil] at hpos
  simp at hpos

theorem lockStep_samplesAt (s : Session) (hs : LockStep s) (j : Nat) :
    (samplesAt s.mainCameraMatCorners j).length = (samplesAt s.cameraMatCorners j).length := by
  cases hc : s.cameraMatCorners[j]? with
  | none =>
    have hm : s.mainCameraMatCorners[j]? = none := by
      rw [List.getElem?_eq_none_iff] at hc ⊢
      rw [hs.1]
      exact hc
    simp [samplesAt, hc, hm]
  | some c =>
    obtain ⟨m, hm, hlen, -⟩ := lockStep_getElem? s hs j c hc
    simp [samplesAt, hc, hm, hlen]

/-- C16.  Lock-step invariant of the two stores: in every state of the members reachable from
the constructor by `Initialize` and by calls of `TryCalibrate`, returning or aborting with
`std::out_of_range`, `mainCameraMatCorners` and `cameraMatCorners` have the same outer length,
at every index `j` the two accumulators hold the same number of samples, and every accumulator
of either store is non-empty; hence, for every iteration `i` and every threshold, the third
conjunct of the solve condition (equal sample counts at index `i - 1`) holds as soon as the
first two do. -/
theorem lockStep_of_reachable {Mat : Type} (cv : OpenCV Mat) (w : Nat) (s : Session)
    (hs : Reachable cv w s) :
    s.mainCameraMatCorners.length = s.cameraMatCorners.length ∧
    (∀ j, (samplesAt s.mainCameraMatCorners j).length =
      (samplesAt s.cameraMatCorners j).length) ∧
    (∀ m ∈ s.mainCameraMatCorners, m ≠ []) ∧
    (∀ c ∈ s.cameraMatCorners, c ≠ []) ∧
    ∀ (a : Args) (i : Nat) (c : SampleList),
      i - 1 < s.cameraMatCorners.length → s.cameraMatCorners[i - 1]? = some c →
      toSizeT w a.requiredImages < c.length →
      ∃ m, s.mainCameraMatCorners[i - 1]? = some m ∧ m.length = c.length := by
  have hl := reachable_lockStep cv w s hs
  refine ⟨hl.1, lockStep_samplesAt s hl, lockStep_mem_main s hl, lockStep_mem_secondary s hl, ?_⟩
  intro a i c _ hc _
  obtain ⟨m, hm, hlen, -⟩ := lockStep_getElem? s hl (i - 1) c hc
  exact ⟨m, hm, hlen⟩

/-- Instance of C16: the members left by a first batch of two frames that both show the
chessboard, with threshold 1. -/
theorem lockStep_of_reachable_witness :
    ∃ s : Session, Reachable scriptedCV 64 s ∧ s.cameraMatCorners = [[[⟨0, 0⟩, ⟨1, 0⟩]]] ∧
      s.mainCameraMatCorners.length = s.cameraMatCorners.length ∧
      (∀ j, (samplesAt s.mainCameraMatCorners j).length =
        (samplesAt s.cameraMatCorners j).length) ∧
      (∀ m ∈ s.mainCameraMatCorners, m ≠ []) ∧
      (∀ c ∈ s.cameraMatCorners, c ≠ []) := by
  obtain ⟨L1, h1⟩ := ok_of_toBool
    (TryCalibrate_accumulate scriptedCV 64 (batch 2 1 [1, 1]) Session.constructed) (by decide!)
  have hm1 : L1.members = ⟨[[[⟨0, 0⟩, ⟨1, 0⟩]]], [[[⟨0, 0⟩, ⟨1, 0⟩]]], []⟩ := by
    have : (TryCalibrate_accumulate scriptedCV 64 (batch 2 1 [1, 1]) Session.constructed).map
        LoopState.members = .ok ⟨[[[⟨0, 0⟩, ⟨1, 0⟩]]], [[[⟨0, 0⟩, ⟨1, 0⟩]]], []⟩ := by decide!
    rw [h1] at this
    exact Except.ok.inj this
  have hc1 : L1.calibratedAllImages = false := by
    have : (TryCalibrate_accumulate scriptedCV 64 (batch 2 1 [1, 1]) Session.constructed).map
        LoopState.calibratedAllImages = .ok false := by decide!
    rw [h1] at this
    exact Except.ok.inj this
  have hreach := Reachable.returned Reachable.constructed
    ((TryCalibrate_ok_iff scriptedCV 64 (batch 2 1 [1, 1]) Session.constructed _).mpr
      ⟨L1, h1, rfl⟩)
  rw [finish_members, hc1] at hreach
  simp only [Bool.false_eq_true, if_false] at hreach
  rw [hm1] at hreach
  have h := lockStep_of_reachable scriptedCV 64 _ hreach
  exact ⟨_, hreach, rfl, h.1, h.2.1, h.2.2.1, h.2.2.2.1⟩

/-- C20.  Vacuous completion with no secondary camera: for every state of the members and every
call with `numImages ≤ 1`, the loop over the secondary cameras runs no iteration (the state it
leaves is the state on entry), the call returns normally with the value `false`,
`*completed = true`, the buffer `cameraTransforms` unchanged, no solver call, and both stores
cleared, whatever they held. -/
theorem no_secondary_camera_completes {Mat : Type} (cv : OpenCV Mat) (w : Nat) (a : Args)
    (s : Session) (hnum : a.numImages ≤ 1) :
    TryCalibrate_accumulate cv w a s = .ok (LoopState.entry s) ∧
    ∃ r, TryCalibrate cv w a s = .ok r ∧ r.result = false ∧ r.completed = true ∧
      r.cameraTransforms = a.cameraTransforms ∧ r.calls = [] ∧
      r.members = Initialize s ∧ r.members.mainCameraMatCorners = [] ∧
      r.members.cameraMatCorners = [] := by
  have hn : a.numImages.toNat - 1 = 0 := by omega
  have hacc : TryCalibrate_accumulate cv w a s = .ok (LoopState.entry s) := by
    unfold TryCalibrate_accumulate
    rw [hn]
    rfl
  refine ⟨hacc, TryCalibrate_finish cv a (LoopState.entry s),
    (TryCalibrate_ok_iff cv w a s _).mpr ⟨_, hacc, rfl⟩, rfl, rfl, rfl, rfl, rfl, rfl, rfl⟩

/-- Instance of C20: a call with `numImages = 1` on members that hold one sample for camera 1
clears both stores. -/
theorem no_secondary_camera_completes_witness :
    ∃ r, TryCalibrate scriptedCV 64 (batch 1 5 [1])
        ⟨[[[⟨0, 0⟩, ⟨1, 0⟩]]], [[[⟨0, 0⟩, ⟨1, 0⟩]]], []⟩ = .ok r ∧
      r.result = false ∧ r.completed = true ∧
      r.cameraTransforms = (batch 1 5 [1]).cameraTransforms ∧ r.calls = [] ∧
      r.members = Initialize ⟨[[[⟨0, 0⟩, ⟨1, 0⟩]]], [[[⟨0, 0⟩, ⟨1, 0⟩]]], []⟩ ∧
      r.members.mainCameraMatCorners = [] ∧ r.members.cameraMatCorners = [] :=
  (no_secondary_camera_completes scriptedCV 64 (batch 1 5 [1])
    ⟨[[[⟨0, 0⟩, ⟨1, 0⟩]]], [[[⟨0, 0⟩, ⟨1, 0⟩]]], []⟩ (by decide)).2

theorem toSizeT_of_neg (w : Nat) (n : Int) (hw : 32 ≤ w) (h0 : n < 0) (h1 : -2 ^ 31 ≤ n) :
    (toSizeT w n : Int) = 2 ^ w + n ∧ 2 ^ (w - 1) ≤ toSizeT w n := by
  have hpow : (2 : Int) ^ 32 ≤ (2 : Int) ^ w := pow_le_pow_right₀ (by norm_num) hw
  have hsplit : (2 : Int) ^ w = 2 * 2 ^ (w - 1) := by
    rw [← pow_succ']
    congr 1
    omega
  have hmod : n % (2 : Int) ^ w = 2 ^ w + n := by
    rw [← Int.add_emod_self_left, Int.emod_eq_of_lt (by linarith) (by linarith)]
  have hcast : (toSizeT w n : Int) = 2 ^ w + n := by
    unfold toSizeT
    rw [hmod, Int.toNat_of_nonneg (by linarith)]
  refine ⟨hcast, ?_⟩
  have hhalf : ((2 ^ (w - 1) : Nat) : Int) ≤ (toSizeT w n : Int) := by
    rw [hcast]
    push_cast
    have : (2 : Int) ^ 32 = 4294967296 := by norm_num
    have h31 : (2 : Int) ^ 31 = 2147483648 := by norm_num
    linarith
  exact_mod_cast hhalf

theorem iteration_below {Mat : Type} (cv : OpenCV Mat) (w : Nat) (a : Args) (bound : Nat)
    (hb1 : 1 ≤ bound) (hb2 : bound ≤ toSizeT w a.requiredImages)
    (i : Nat) (L L1 : LoopState) (hi : 1 ≤ i) (hinv : LoopBelow bound i L)
    (h : TryCalibrate_iteration cv w a i L = .ok L1) : LoopBelow bound (i + 1) L1 := by
  obtain ⟨r, L0, -, ha, hsol⟩ := iteration_ok cv w a i L L1 h
  obtain ⟨hcalls, -, -, -, -, hfalse, htrue⟩ := append_spec i r.1 r.2.1 r.2.2 L L0 ha
  obtain ⟨hmem, -, -, hcase⟩ := solve_spec cv w a i L0 L1 hsol
  have hbelow0 : ∀ (j : Nat) (c : SampleList), L0.members.cameraMatCorners[j]? = some c →
      c.length ≤ bound ∧ (i ≤ j → c.length < bound) := by
    intro j c hc
    cases hf : r.1 with
    | false =>
      rw [hfalse hf] at hc
      have := hinv.below j c hc
      exact ⟨this.1, fun hj => this.2 (by omega)⟩
    | true =>
      rcases htrue hf with ⟨hlen, -, hsec⟩ | ⟨-, m0, c0, -, hc0, -, hsec⟩
      · rw [hsec] at hc
        by_cases hj : j = L.members.cameraMatCorners.length
        · subst hj
          rw [getElem?_snoc_length] at hc
          cases hc
          exact ⟨by simpa using hb1, fun hcon => by omega⟩
        · rw [getElem?_snoc_of_ne _ _ _ hj] at hc
          have := hinv.below j c hc
          exact ⟨this.1, fun hcon => this.2 (by omega)⟩
      · rw [hsec] at hc
        by_cases hj : i - 1 = j
        · subst hj
          have hlt : i - 1 < L.members.cameraMatCorners.length := by
            by_contra hcon
            rw [List.getElem?_eq_none (Nat.le_of_not_lt hcon)] at hc0
            cases hc0
          rw [List.getElem?_set_eq_of_lt _ hlt] at hc
          cases hc
          have := (hinv.below (i - 1) c0 hc0).2 (le_refl _)
          exact ⟨by simp; omega, fun hcon => by omega⟩
        · rw [List.getElem?_set_ne hj] at hc
          have := hinv.below j c hc
          exact ⟨this.1, fun hcon => this.2 (by omega)⟩
  rcases hcase with ⟨-, hc, -⟩ | ⟨-, m, c, k0, ki, d0, di, h1, h2, -, -, -, -, -, -, -⟩
  · refine ⟨by rw [hc, hcalls]; exact hinv.no_calls, ?_⟩
    intro j c hc1
    rw [hmem] at hc1
    have := hbelow0 j c hc1
    exact ⟨this.1, fun hj => this.2 (by omega)⟩
  · exfalso
    have := (hbelow0 (i - 1) c h1).1
    omega

theorem accumulate_below {Mat : Type} (cv : OpenCV Mat) (w : Nat) (a : Args) (s : Session)
    (bound : Nat) (hb1 : 1 ≤ bound) (hb2 : bound ≤ toSizeT w a.requiredImages)
    (hsize : ∀ c ∈ s.cameraMatCorners, c.length < bound)
    (L : LoopState) (h : TryCalibrate_accumulate cv w a s = .ok L) :
    LoopBelow bound (1 + (a.numImages.toNat - 1)) L := by
  refine loop_invariant (TryCalibrate_iteration cv w a) (LoopBelow bound)
    (1 + (a.numImages.toNat - 1))
    (fun i L0 L1 hi _ hinv hb => iteration_below cv w a bound hb1 hb2 i L0 L1 hi hinv hb)
    (a.numImages.toNat - 1) 1 (LoopState.entry s) L (le_refl 1) (le_refl _) ⟨rfl, ?_⟩ h
  intro j c hc
  have := hsize c (List.getElem?_mem hc)
  exact ⟨le_of_lt this, fun _ => this⟩

/-- C19.  Negative threshold never completes.  On a platform whose `size_t` has `w ≥ 32` bits,
where a `std::vector` holds at most `PTRDIFF_MAX` elements, fewer than `2 ^ (w - 1)`, for
every `int` threshold
`requiredImages < 0`, every state of the members and every batch with `numImages ≥ 2` on which
`TryCalibrate` returns: the threshold is compared as `2 ^ w + requiredImages`, no call of
`stereo_calibration` is made and `*completed` is `false`, although every accumulator holds more
samples than the negative threshold. -/
theorem negative_threshold_never_completes {Mat : Type} (cv : OpenCV Mat) (w : Nat) (a : Args)
    (s : Session) (r : Returned) (hw : 32 ≤ w) (hneg : a.requiredImages < 0)
    (hint : -2 ^ 31 ≤ a.requiredImages) (hnum : 2 ≤ a.numImages)
    (hsize : ∀ c ∈ s.cameraMatCorners, c.length < 2 ^ (w - 1))
    (hret : TryCalibrate cv w a s = .ok r) :
    (toSizeT w a.requiredImages : Int) = 2 ^ w + a.requiredImages ∧
    r.calls = [] ∧ r.completed = false ∧
    ∀ c ∈ r.members.cameraMatCorners,
      a.requiredImages < (c.length : Int) ∧ ¬ toSizeT w a.requiredImages < c.length := by
  obtain ⟨hconv, hhalf⟩ := toSizeT_of_neg w a.requiredImages hw hneg hint
  obtain ⟨L, hacc, hr⟩ := (TryCalibrate_ok_iff cv w a s r).mp hret
  have hinv := accumulate_below cv w a s (2 ^ (w - 1)) Nat.one_le_two_pow hhalf hsize L hacc
  have hbasic := accumulate_basic cv w a s L hacc
  have hcal : L.calibratedAllImages = false := by
    cases hc : L.calibratedAllImages with
    | false => rfl
    | true =>
      exfalso
      obtain ⟨c, hcm, -⟩ := hbasic.completed_iff.mp hc 1 (le_refl 1) (by omega)
      rw [hinv.no_calls] at hcm
      simp at hcm
  have hm : r.members = L.members := by
    rw [hr, finish_members, hcal]
    rfl
  refine ⟨hconv, by rw [hr, finish_calls]; exact hinv.no_calls,
    by rw [hr, finish_completed]; exact hcal, ?_⟩
  intro c hc
  rw [hm] at hc
  obtain ⟨j, hj⟩ := List.getElem?_of_mem hc
  have := (hinv.below j c hj).1
  exact ⟨by omega, by omega⟩

/-- Instance of C19: threshold `-1` on a 64-bit platform, a first batch of two frames that both
show the chessboard. -/
theorem negative_threshold_never_completes_witness :
    ∃ r, TryCalibrate scriptedCV 64 (batch 2 (-1) [1, 1]) Session.constructed = .ok r ∧
      (toSizeT 64 (batch 2 (-1) [1, 1]).requiredImages : Int) =
        2 ^ 64 + (batch 2 (-1) [1, 1]).requiredImages ∧
      r.calls = [] ∧ r.completed = false ∧
      ∀ c ∈ r.members.cameraMatCorners,
        (batch 2 (-1) [1, 1]).requiredImages < (c.length : Int) ∧
        ¬ toSizeT 64 (batch 2 (-1) [1, 1]).requiredImages < c.length := by
  obtain ⟨L, h⟩ := ok_of_toBool
    (TryCalibrate_accumulate scriptedCV 64 (batch 2 (-1) [1, 1]) Session.constructed)
    (by decide!)
  have hret := (TryCalibrate_ok_iff scriptedCV 64 (batch 2 (-1) [1, 1])
    Session.constructed _).mpr ⟨L, h, rfl⟩
  exact ⟨_, hret, negative_threshold_never_completes scriptedCV 64 (batch 2 (-1) [1, 1])
    Session.constructed _ (by decide) (by decide) (by decide) (by decide)
    (by intro c hc; simp [Session.constructed] at hc) hret⟩

theorem solve_transformations {Mat : Type} (cv : OpenCV Mat) (w : Nat) (a : Args) (i : Nat)
    (L L1 : LoopState) (h : TryCalibrate_solve cv w a i L = .ok L1) :
    (L1.calls = L.calls ∧ L1.transformations = L.transformations ++ [Transformation.identity]) ∨
    ∃ c : StereoCall, c.camera = i ∧ L1.calls = L.calls ++ [c] ∧
      L1.transformations = L.transformations ++ [c.run cv] := by
  unfold TryCalibrate_solve at h
  split at h
  · split at h
    · cases h
    · split at h
      · split at h
        · cases h
        · split at h
          · split at h
            · cases h
              exact Or.inr ⟨_, rfl, rfl, rfl⟩
            · cases h
          · cases h
            exact Or.inl ⟨rfl, rfl⟩
      · cases h
        exact Or.inl ⟨rfl, rfl⟩
  · cases h
    exact Or.inl ⟨rfl, rfl⟩

theorem entry_transforms {Mat : Type} (cv : OpenCV Mat) (s : Session) :
    LoopTransforms cv 1 (LoopState.entry s) := by
  refine ⟨?_⟩
  intro c hc
  simp [LoopState.entry] at hc

theorem iteration_transforms {Mat : Type} (cv : OpenCV Mat) (w : Nat) (a : Args) (s : Session)
    (i : Nat) (L L1 : LoopState) (hi : 1 ≤ i) (hb : LoopBasic s i L)
    (hinv : LoopTransforms cv i L)
    (h : TryCalibrate_iteration cv w a i L = .ok L1) : LoopTransforms cv (i + 1) L1 := by
  obtain ⟨r, L0, -, ha, hsol⟩ := iteration_ok cv w a i L L1 h
  obtain ⟨hcalls, -, htr, -, -, -, -⟩ := append_spec i r.1 r.2.1 r.2.2 L L0 ha
  have hcount := hb.count
  have hold : ∀ (x : Transformation), ∀ c ∈ L.calls,
      (L.transformations ++ [x])[c.camera - 1]? = some (c.run cv) := by
    intro x c hc
    have hr := hb.calls_range c hc
    rw [List.getElem?_append_left (by omega)]
    exact hinv.solved c hc
  refine ⟨?_⟩
  rcases solve_transformations cv w a i L0 L1 hsol with ⟨hc, ht⟩ | ⟨c, hcam, hc, ht⟩
  · intro c1 hc1
    rw [hc, hcalls] at hc1
    rw [ht, htr]
    exact hold _ c1 hc1
  · intro c1 hc1
    rw [hc, hcalls, List.mem_append, List.mem_singleton] at hc1
    rw [ht, htr]
    rcases hc1 with hc1 | hc1
    · exact hold _ c1 hc1
    · subst hc1
      rw [hcam, show i - 1 = L.transformations.length by omega]
      exact getElem?_snoc_length _ _

theorem accumulate_transforms {Mat : Type} (cv : OpenCV Mat) (w : Nat) (a : Args) (s : Session)
    (L : LoopState) (h : TryCalibrate_accumulate cv w a s = .ok L) :
    LoopTransforms cv (1 + (a.numImages.toNat - 1)) L :=
  (loop_invariant (TryCalibrate_iteration cv w a)
    (fun i L0 => LoopBasic s i L0 ∧ LoopTransforms cv i L0) (1 + (a.numImages.toNat - 1))
    (fun i L0 L1 hi _ hinv hb =>
      ⟨iteration_basic cv w a s i L0 L1 hi hinv.1 hb,
       iteration_transforms cv w a s i L0 L1 hi hinv.1 hinv.2 hb⟩)
    (a.numImages.toNat - 1) 1 (LoopState.entry s) L (le_refl 1) (le_refl _)
    ⟨entry_basic s, entry_transforms cv s⟩ h).2

theorem writeBlock_outside {Mat : Type} (cv : OpenCV Mat) (p : Nat → ℚ) (i : Nat)
    (tr : Transformation) (idx : Nat) (h : idx < i * 16 ∨ i * 16 + 16 ≤ idx) :
    TryCalibrate_writeBlock cv p i tr idx = p idx := by
  simp only [TryCalibrate_writeBlock, store]
  repeat' rw [if_neg (by omega)]

theorem writeBlock_inside {Mat : Type} (cv : OpenCV Mat) (p : Nat → ℚ) (i : Nat)
    (tr : Transformation) (j : Nat) (h : j < 16) :
    TryCalibrate_writeBlock cv p i tr (i * 16 + j) = (TryCalibrate_block cv tr).getD j 0 := by
  interval_cases j <;> simp [TryCalibrate_writeBlock, store, TryCalibrate_block]

theorem emit_below {Mat : Type} (cv : OpenCV Mat) (trs : List Transformation) :
    ∀ (i : Nat) (p : Nat → ℚ) (idx : Nat), idx < i * 16 →
      TryCalibrate_emit cv i trs p idx = p idx := by
  induction trs with
  | nil =>
    intro i p idx _
    rfl
  | cons tr rest ih =>
    intro i p idx h
    simp only [TryCalibrate_emit]
    rw [ih (i + 1) _ idx (by omega), writeBlock_outside cv p i tr idx (Or.inl h)]

theorem emit_inside {Mat : Type} (cv : OpenCV Mat) (trs : List Transformation) :
    ∀ (i : Nat) (p : Nat → ℚ) (k : Nat) (tr : Transformation) (j : Nat),
      trs[k]? = some tr → j < 16 →
      TryCalibrate_emit cv i trs p ((i + k) * 16 + j) = (TryCalibrate_block cv tr).getD j 0 := by
  induction trs with
  | nil =>
    intro i p k tr j hk _
    simp at hk
  | cons t0 rest ih =>
    intro i p k tr j hk hj
    simp only [TryCalibrate_emit]
    cases k with
    | zero =>
      simp only [List.getElem?_cons_zero, Option.some.injEq] at hk
      subst hk
      rw [emit_below cv rest (i + 1) _ _ (by omega), Nat.add_zero]
      exact writeBlock_inside cv p i t0 j hj
    | succ k =>
      simp only [List.getElem?_cons_succ] at hk
      have := ih (i + 1) (TryCalibrate_writeBlock cv p i t0) k tr j hk hj
      rw [show i + (k + 1) = i + 1 + k by omega]
      exact this

/-- The block of a secondary camera after a completed call: block `k` holds the sixteen floats
of the transformation returned by the solver call of camera `k + 1`. -/
theorem completed_block {Mat : Type} (cv : OpenCV Mat) (w : Nat) (a : Args) (s : Session)
    (r : Returned) (hret : TryCalibrate cv w a s = .ok r) (hc : r.completed = true)
    (k : Nat) (hk : (k : Int) + 1 < a.numImages) :
    ∃ c ∈ r.calls, c.camera = k + 1 ∧
      ∀ j, j < 16 → r.cameraTransforms (k * 16 + j) = (TryCalibrate_block cv (c.run cv)).getD j 0 := by
  obtain ⟨L, hacc, hr⟩ := (TryCalibrate_ok_iff cv w a s r).mp hret
  have hbasic := accumulate_basic cv w a s L hacc
  have htrans := accumulate_transforms cv w a s L hacc
  have hcal : L.calibratedAllImages = true := by
    rw [← finish_completed cv a L, ← hr]
    exact hc
  obtain ⟨c, hcm, hcam⟩ := hbasic.completed_iff.mp hcal (k + 1) (by omega) (by omega)
  refine ⟨c, by rw [hr, finish_calls]; exact hcm, hcam, ?_⟩
  intro j hj
  have hbuf : r.cameraTransforms = TryCalibrate_emit cv 0 L.transformations a.cameraTransforms := by
    rw [hr]
    unfold TryCalibrate_finish
    rw [if_pos hcal]
  have hget := htrans.solved c hcm
  rw [hcam, Nat.add_sub_cancel] at hget
  rw [hbuf]
  have := emit_inside cv L.transformations 0 a.cameraTransforms k (c.run cv) j hget hj
  rw [Nat.zero_add] at this
  exact this

/-- C11 (counterexample).  A first batch of two frames that both show the chessboard, with
threshold 0, on a library whose solver returns the quarter turn `R` about the first axis
(`R(1,2) = -1`, `R(2,1) = 1`): the call completes, and slot 8 of block 0, which in row-major
order would hold `R(1,2)`, holds `R(2,1)`; slot 10, which would hold `R(2,1)`, holds `R(1,2)`. -/
theorem row_major_layout_counterexample :
    (TryCalibrate quarterTurnCV 64 (batch 2 0 [1, 1]) Session.constructed).map
        (fun r => (r.completed, r.calls.map (StereoCall.run quarterTurnCV))) =
      .ok (true, [⟨quarterTurn, ⟨1, 2, 3⟩⟩]) ∧
    (TryCalibrate quarterTurnCV 64 (batch 2 0 [1, 1]) Session.constructed).map
        (fun r => (r.cameraTransforms 8, r.cameraTransforms 10)) =
      .ok (quarterTurn.m21, quarterTurn.m12) ∧
    quarterTurn.m21 ≠ quarterTurn.m12 :=
  ⟨by decide!, by decide!, by decide!⟩

/-- C11 (amended).  Output layout: when `*completed = true`, for every secondary camera
`k + 1 < numImages` the solver was called, and with `(R, t)` the transformation it returned,
block `k` of `cameraTransforms` (floats `16 k .. 16 k + 15`) holds `t(0), t(1), t(2)` in slots
0..2, the entries `R(1,0), R(2,0), R(0,1), R(1,1), R(2,1), R(0,2), R(1,2), R(2,2)` in slots
4..11 (column-major order), and `0, 0, 0, 0` in slots 12..15. -/
theorem output_layout_column_major {Mat : Type} (cv : OpenCV Mat) (w : Nat) (a : Args)
    (s : Session) (r : Returned) (hret : TryCalibrate cv w a s = .ok r)
    (hc : r.completed = true) (k : Nat) (hk : (k : Int) + 1 < a.numImages) :
    ∃ c ∈ r.calls, c.camera = k + 1 ∧
      r.cameraTransforms (k * 16) = (c.run cv).t.v0 ∧
      r.cameraTransforms (k * 16 + 1) = (c.run cv).t.v1 ∧
      r.cameraTransforms (k * 16 + 2) = (c.run cv).t.v2 ∧
      r.cameraTransforms (k * 16 + 4) = (c.run cv).R.m10 ∧
      r.cameraTransforms (k * 16 + 5) = (c.run cv).R.m20 ∧
      r.cameraTransforms (k * 16 + 6) = (c.run cv).R.m01 ∧
      r.cameraTransforms (k * 16 + 7) = (c.run cv).R.m11 ∧
      r.cameraTransforms (k * 16 + 8) = (c.run cv).R.m21 ∧
      r.cameraTransforms (k * 16 + 9) = (c.run cv).R.m02 ∧
      r.cameraTransforms (k * 16 + 10) = (c.run cv).R.m12 ∧
      r.cameraTransforms (k * 16 + 11) = (c.run cv).R.m22 ∧
      r.cameraTransforms (k * 16 + 12) = 0 ∧
      r.cameraTransforms (k * 16 + 13) = 0 ∧
      r.cameraTransforms (k * 16 + 14) = 0 ∧
      r.cameraTransforms (k * 16 + 15) = 0 := by
  obtain ⟨c, hcm, hcam, hblock⟩ := completed_block cv w a s r hret hc k hk
  exact ⟨c, hcm, hcam, hblock 0 (by omega), hblock 1 (by omega), hblock 2 (by omega),
    hblock 4 (by omega), hblock 5 (by omega), hblock 6 (by omega), hblock 7 (by omega),
    hblock 8 (by omega), hblock 9 (by omega), hblock 10 (by omega), hblock 11 (by omega),
    hblock 12 (by omega), hblock 13 (by omega), hblock 14 (by omega), hblock 15 (by omega)⟩

/-- Instance of the amended C11: block 0 of a completed first batch on the library whose solver
returns the quarter turn. -/
theorem output_layout_column_major_witness :
    ∃ r, TryCalibrate quarterTurnCV 64 (batch 2 0 [1, 1]) Session.constructed = .ok r ∧
      r.completed = true ∧
      ∃ c ∈ r.calls, c.camera = 0 + 1 ∧
        r.cameraTransforms (0 * 16 + 8) = (c.run quarterTurnCV).R.m21 ∧
        r.cameraTransforms (0 * 16 + 10) = (c.run quarterTurnCV).R.m12 := by
  obtain ⟨L, h⟩ := ok_of_toBool
    (TryCalibrate_accumulate quarterTurnCV 64 (batch 2 0 [1, 1]) Session.constructed)
    (by decide!)
  have hc : L.calibratedAllImages = true := by
    have : (TryCalibrate_accumulate quarterTurnCV 64 (batch 2 0 [1, 1])
        Session.constructed).map LoopState.calibratedAllImages = .ok true := by decide!
    rw [h] at this
    exact Except.ok.inj this
  have hret := (TryCalibrate_ok_iff quarterTurnCV 64 (batch 2 0 [1, 1])
    Session.constructed _).mpr ⟨L, h, rfl⟩
  have hcompleted : (TryCalibrate_finish quarterTurnCV (batch 2 0 [1, 1]) L).completed = true := by
    rw [finish_completed, hc]
  obtain ⟨c, hcm, hcam, -, -, -, -, -, -, -, h8, -, h10, -⟩ :=
    output_layout_column_major quarterTurnCV 64 (batch 2 0 [1, 1]) Session.constructed _ hret
      hcompleted 0 (by decide)
  exact ⟨_, hret, hcompleted, c, hcm, hcam, h8, h10⟩

/-- C15 (failing run).  Two runs of the same completed first batch on two libraries that differ
only in the vector returned by the axis-angle conversion, `(157/100, 0, 0)` against
`(0, 0, 0)`: the solver returns the same `(R, t)` in both, and the blocks written differ in
slot 3, which holds the first component of the axis-angle vector; the other fifteen slots are
equal. -/
theorem axis_angle_reaches_slot_three :
    (TryCalibrate quarterTurnCV 64 (batch 2 0 [1, 1]) Session.constructed).map
        (fun r => (r.completed, r.calls.map (StereoCall.run quarterTurnCV),
          (List.range 16).map r.cameraTransforms)) =
      .ok (true, [⟨quarterTurn, ⟨1, 2, 3⟩⟩],
        [1, 2, 3, 157 / 100, 0, 0, 0, 0, 1, 0, -1, 0, 0, 0, 0, 0]) ∧
    (TryCalibrate quarterTurnZeroCV 64 (batch 2 0 [1, 1]) Session.constructed).map
        (fun r => (r.completed, r.calls.map (StereoCall.run quarterTurnZeroCV),
          (List.range 16).map r.cameraTransforms)) =
      .ok (true, [⟨quarterTurn, ⟨1, 2, 3⟩⟩],
        [1, 2, 3, 0, 0, 0, 0, 0, 1, 0, -1, 0, 0, 0, 0, 0]) :=
  ⟨by decide!, by decide!⟩

/-- C18.  Actual layout of the rotation slots: when `*completed = true`, for every secondary
camera `k + 1 < numImages`, with `(R, t)` the transformation returned by its solver call, slot 3
of block `k` holds the first component of `cv::Rodrigues(R)`, and slots 4..11 hold
`R(1,0), R(2,0), R(0,1), R(1,1), R(2,1), R(0,2), R(1,2), R(2,2)` in that order.  The entry
`R(0,0)` is not written: two transformations that agree on `t`, on the eight other entries of
`R` and on the first component of the axis-angle vector give the same buffer, whatever their
`R(0,0)`. -/
theorem rotation_slots_layout {Mat : Type} (cv : OpenCV Mat) (w : Nat) (a : Args)
    (s : Session) (r : Returned) (hret : TryCalibrate cv w a s = .ok r)
    (hc : r.completed = true) (k : Nat) (hk : (k : Int) + 1 < a.numImages) :
    (∃ c ∈ r.calls, c.camera = k + 1 ∧
      r.cameraTransforms (k * 16 + 3) = (cv.Rodrigues (c.run cv).R).v0 ∧
      r.cameraTransforms (k * 16 + 4) = (c.run cv).R.m10 ∧
      r.cameraTransforms (k * 16 + 5) = (c.run cv).R.m20 ∧
      r.cameraTransforms (k * 16 + 6) = (c.run cv).R.m01 ∧
      r.cameraTransforms (k * 16 + 7) = (c.run cv).R.m11 ∧
      r.cameraTransforms (k * 16 + 8) = (c.run cv).R.m21 ∧
      r.cameraTransforms (k * 16 + 9) = (c.run cv).R.m02 ∧
      r.cameraTransforms (k * 16 + 10) = (c.run cv).R.m12 ∧
      r.cameraTransforms (k * 16 + 11) = (c.run cv).R.m22) ∧
    ∀ (p : Nat → ℚ) (i : Nat) (tr : Transformation) (x : ℚ),
      (cv.Rodrigues { tr.R with m00 := x }).v0 = (cv.Rodrigues tr.R).v0 →
      TryCalibrate_writeBlock cv p i { tr with R := { tr.R with m00 := x } } =
        TryCalibrate_writeBlock cv p i tr := by
  constructor
  · obtain ⟨c, hcm, hcam, hblock⟩ := completed_block cv w a s r hret hc k hk
    exact ⟨c, hcm, hcam, hblock 3 (by omega), hblock 4 (by omega), hblock 5 (by omega),
      hblock 6 (by omega), hblock 7 (by omega), hblock 8 (by omega), hblock 9 (by omega),
      hblock 10 (by omega), hblock 11 (by omega)⟩
  · intro p i tr x hx
    funext idx
    by_cases hin : idx < i * 16 ∨ i * 16 + 16 ≤ idx
    · rw [writeBlock_outside cv p i _ idx hin, writeBlock_outside cv p i _ idx hin]
    · obtain ⟨j, hj, rfl⟩ : ∃ j, j < 16 ∧ idx = i * 16 + j := ⟨idx - i * 16, by omega, by omega⟩
      rw [writeBlock_inside cv p i _ j hj, writeBlock_inside cv p i _ j hj]
      simp only [TryCalibrate_block, hx]

/-- Instance of C18: block 0 of a completed first batch on the library whose solver returns the
quarter turn; slot 3 holds `157/100`, the first component of the axis-angle vector. -/
theorem rotation_slots_layout_witness :
    ∃ r, TryCalibrate quarterTurnCV 64 (batch 2 0 [1, 1]) Session.constructed = .ok r ∧
      r.completed = true ∧
      ∃ c ∈ r.calls, c.camera = 0 + 1 ∧
        r.cameraTransforms (0 * 16 + 3) = (quarterTurnCV.Rodrigues (c.run quarterTurnCV).R).v0 := by
  obtain ⟨L, h⟩ := ok_of_toBool
    (TryCalibrate_accumulate quarterTurnCV 64 (batch 2 0 [1, 1]) Session.constructed)
    (by decide!)
  have hc : L.calibratedAllImages = true := by
    have : (TryCalibrate_accumulate quarterTurnCV 64 (batch 2 0 [1, 1])
        Session.constructed).map LoopState.calibratedAllImages = .ok true := by decide!
    rw [h] at this
    exact Except.ok.inj this
  have hret := (TryCalibrate_ok_iff quarterTurnCV 64 (batch 2 0 [1, 1])
    Session.constructed _).mpr ⟨L, h, rfl⟩
  have hcompleted : (TryCalibrate_finish quarterTurnCV (batch 2 0 [1, 1]) L).completed = true := by
    rw [finish_completed, hc]
  obtain ⟨c, hcm, hcam, h3, -⟩ :=
    (rotation_slots_layout quarterTurnCV 64 (batch 2 0 [1, 1]) Session.constructed _ hret
      hcompleted 0 (by decide)).1
  exact ⟨_, hret, hcompleted, c, hcm, hcam, h3⟩

/-- C13 (counterexample).  No `InvalidPattern` failure exists.  With `squareSize = -10` the
generation returns the six points of the 2 x 3 pattern scaled by `-10`, and with `rows = 0` it
returns the empty list.  A call of `TryCalibrate` with square length `-1` and threshold 1, on
two frames that both show the chessboard, returns normally and appends the pair to the stores;
with threshold 0 it returns normally and hands the square length `-1` to the solver. -/
theorem invalid_pattern_counterexample :
    chessboard_corners_world ⟨3, 2⟩ (-10) =
      [⟨0, 0, 0⟩, ⟨-10, 0, 0⟩, ⟨-20, 0, 0⟩, ⟨0, -10, 0⟩, ⟨-10, -10, 0⟩, ⟨-20, -10, 0⟩] ∧
    chessboard_corners_world ⟨3, 0⟩ 10 = [] ∧
    (TryCalibrate scriptedCV 64 (batchWithSquare 2 1 [1, 1] (-1)) Session.constructed).map
        Returned.members =
      .ok ⟨[[[⟨0, 0⟩, ⟨1, 0⟩]]], [[[⟨0, 0⟩, ⟨1, 0⟩]]], []⟩ ∧
    (TryCalibrate scriptedCV 64 (batchWithSquare 2 0 [1, 1] (-1)) Session.constructed).map
        (fun r => (r.completed, r.calls.map StereoCall.chessboard_square_length)) =
      .ok (true, [-1]) :=
  ⟨by decide!, by decide!, by decide!, by decide!⟩

/-- C13 (amended).  World-pattern generation has no failure modes, for any rows, cols and square
size: the list built by `stereo_calibration` is empty when `rows ≤ 0` or `cols ≤ 0`, and for
`rows > 0` and `cols > 0` it has `rows * cols` points, the point of index `r * cols + c` being
`(c * s, r * s, 0)`, for every square size `s`, positive or not. -/
theorem world_pattern_total (chessboardWidth chessboardHeight : Int) (squareSize : ℚ) :
    (chessboardHeight ≤ 0 ∨ chessboardWidth ≤ 0 →
      chessboard_corners_world ⟨chessboardWidth, chessboardHeight⟩ squareSize = []) ∧
    (0 < chessboardHeight → 0 < chessboardWidth →
      (chessboard_corners_world ⟨chessboardWidth, chessboardHeight⟩ squareSize).length =
          chessboardHeight.toNat * chessboardWidth.toNat ∧
      ∀ r c : Nat, (r : Int) < chessboardHeight → (c : Int) < chessboardWidth →
        (chessboard_corners_world ⟨chessboardWidth, chessboardHeight⟩ squareSize)[
            r * chessboardWidth.toNat + c]? =
          some ⟨(c : ℚ) * squareSize, (r : ℚ) * squareSize, 0⟩) := by
  have hg := flatMap_range_grid
    (fun h w => (⟨(w : ℚ) * squareSize, (h : ℚ) * squareSize, 0⟩ : Point3f))
    chessboardWidth.toNat chessboardHeight.toNat
  constructor
  · intro h
    apply List.eq_nil_of_length_eq_zero
    have hlen : (chessboard_corners_world ⟨chessboardWidth, chessboardHeight⟩ squareSize).length =
        chessboardHeight.toNat * chessboardWidth.toNat := hg.1
    rw [hlen]
    rcases h with h | h
    · rw [Int.toNat_of_nonpos h, Nat.zero_mul]
    · rw [Int.toNat_of_nonpos h, Nat.mul_zero]
  · intro _ _
    refine ⟨hg.1, ?_⟩
    intro r c hr hc
    exact hg.2 r c (by omega) (by omega)

/-- Instance of the amended C13: no point for `rows = 0`, and in the 2 x 3 pattern with square
size `-10` the point of row 1 and column 2 is `(-20, -10, 0)`. -/
theorem world_pattern_total_witness :
    chessboard_corners_world ⟨3, 0⟩ 10 = [] ∧
    (chessboard_corners_world ⟨3, 2⟩ (-10))[1 * 3 + 2]? = some ⟨-20, -10, 0⟩ := by
  refine ⟨(world_pattern_total 3 0 10).1 (Or.inl (by decide)), ?_⟩
  have h := ((world_pattern_total 3 2 (-10)).2 (by decide) (by decide)).2 1 2
    (by decide) (by decide)
  norm_num at h ⊢
  exact h

end SpectatorView
